import Mathlib

/-!
Verification of the loss-criterion / post-processing core of DE-DETRs
(`src/models/detr.py` and its configuration in `src/main.py`).

Machine floats of the original code are modelled by rationals; tensors by
lists.  External collaborators (torch kernels such as `F.cross_entropy`,
`torchvision.ops.batched_nms`, `util.box_ops`, `util.misc`) are either
modelled from the specification (marked in their doc comments) or kept
opaque as explicit function parameters, so that everything written here
stays executable.
-/

/-- A box in center-size encoding `(cx, cy, w, h)` (`pred_boxes` / target
`boxes` rows of `detr.py`). -/
structure BoxCS where
  cx : ℚ
  cy : ℚ
  w : ℚ
  h : ℚ
deriving DecidableEq, Inhabited

/-- A box in corner encoding `(x0, y0, x1, y1)`. -/
structure BoxXY where
  x0 : ℚ
  y0 : ℚ
  x1 : ℚ
  y1 : ℚ
deriving DecidableEq, Inhabited

/-- `util.box_ops.box_cxcywh_to_xyxy` restricted to one row: corner form of a
center-size box.  `util/box_ops.py` is outside `src/`; the conversion is the
one the spec states in GeometryOps (`to_corners`). -/
def box_cxcywh_to_xyxy (b : BoxCS) : BoxXY :=
  ⟨b.cx - b.w / 2, b.cy - b.h / 2, b.cx + b.w / 2, b.cy + b.h / 2⟩

/-- One image's target dict (`targets[batch_idx]` in `detr.py`).  The keys
listed at `detr.py` line 388 are `boxes`, `labels`, `area`, `iscrowd`,
`orig_size`, `size`, `image_id`; the augmentation step may additionally
install a `repeat` key (line 410), modelled by the optional field
`repeatFlag` (`none` = key absent). -/
structure Target where
  boxes : List BoxCS
  labels : List ℕ
  area : List ℚ
  iscrowd : List ℕ
  orig_size : ℕ × ℕ
  size : ℕ × ℕ
  image_id : ℕ
  repeatFlag : Option (List ℕ)
deriving DecidableEq, Inhabited

/-- `t.repeat(k)` of a 1-dim torch tensor (and `t.repeat(k, 1)` of a 2-dim
one): the list tiled `k` times. -/
def tensorRepeat {α : Type} (l : List α) (k : ℕ) : List α :=
  (List.replicate k l).flatten

/-- Torch fancy indexing `t[idx]`: gather the entries of `l` at the positions
in `idx` (out-of-range reads, which torch rejects, return `default`). -/
def gatherD {α : Type} [Inhabited α] (l : List α) (idx : List ℕ) : List α :=
  idx.map (fun i => l.getD i default)

/-- `detr.py` lines 410-412: `torch.zeros(num_inst * repeat_time)` followed by
`[:num_inst] = 1` — the `repeat` flag vector.  Note its length is
`num_inst * repeat_time`, independent of any rows appended afterwards. -/
def repeatFlagList (num_inst repeat_time : ℕ) : List ℕ :=
  List.replicate (min num_inst (num_inst * repeat_time)) 1 ++
    List.replicate (num_inst * repeat_time - num_inst) 0

/-- The per-image body of the label-repetition loop in `SetCriterion.forward`
(`detr.py` lines 390-412).  `num_fore` is `int(self.repeat_ratio * num_queries)`
when a ratio is configured (`none` otherwise, in which case `repeat_label`
is the fixed repeat count); `randperm` models the draw
`torch.randperm(num_inst)` — with the same random state the same permutation
of `range num_inst`, making the call deterministic given the RNG state. -/
def augmentImage (repeat_label : Option ℕ) (num_fore : Option ℕ)
    (randperm : List ℕ) (t : Target) : Target :=
  let num_inst := t.labels.length
  match num_fore with
  | some nf =>
    if num_inst = 0 ∨ nf ≤ num_inst then t
    else
      let repeat_time := nf / num_inst
      let repeat_rand := nf % num_inst
      let boxes1 := tensorRepeat t.boxes repeat_time
      let labels1 := tensorRepeat t.labels repeat_time
      let area1 := tensorRepeat t.area repeat_time
      let iscrowd1 := tensorRepeat t.iscrowd repeat_time
      let sample_idx := randperm.take repeat_rand
      { t with
        boxes := boxes1 ++ gatherD boxes1 sample_idx,
        labels := labels1 ++ gatherD labels1 sample_idx,
        area := area1 ++ gatherD area1 sample_idx,
        iscrowd := iscrowd1 ++ gatherD iscrowd1 sample_idx,
        repeatFlag := some (repeatFlagList num_inst repeat_time) }
  | none =>
    let repeat_time := repeat_label.getD 0
    { t with
      boxes := tensorRepeat t.boxes repeat_time,
      labels := tensorRepeat t.labels repeat_time,
      area := tensorRepeat t.area repeat_time,
      iscrowd := tensorRepeat t.iscrowd repeat_time,
      repeatFlag := some (repeatFlagList num_inst repeat_time) }

/-- The whole augmentation stage of `SetCriterion.forward` (`detr.py` lines
385-412): only in training mode and only when a repeat count or a repeat
ratio is configured; `num_fore = int(repeat_ratio * num_queries)` (`int`
truncation of the nonnegative product, i.e. the floor); one independent
`randperm` draw per image. -/
def augmentTargets (training : Bool) (repeat_label : Option ℕ)
    (rRatioCfg : Option ℚ) (num_queries : ℕ)
    (randperms : List (List ℕ)) (targets : List Target) : List Target :=
  if training ∧ (repeat_label ≠ none ∨ rRatioCfg ≠ none) then
    let num_fore := rRatioCfg.map (fun q => Int.toNat ⌊q * (num_queries : ℚ)⌋)
    (targets.zip randperms).map (fun p => augmentImage repeat_label num_fore p.2 p.1)
  else targets

/-- Static configuration of `SetCriterion` (`detr.py` lines 228-250). -/
structure SetCriterionCfg where
  num_classes : ℕ
  eos_coef : ℚ
  losses : List String
  repeat_label : Option ℕ
  rRatio : Option ℚ
deriving DecidableEq

/-- `SetCriterion.__init__` (`detr.py` lines 228-250): the construction
fails on the assert at line 247 (`repeat_label is None or repeat_ratio is
None`) and otherwise records the configuration. -/
def SetCriterionInit (num_classes : ℕ) (eos_coef : ℚ) (losses : List String)
    (repeat_label : Option ℕ) (rRatio : Option ℚ) :
    Except String SetCriterionCfg :=
  if repeat_label = none ∨ rRatio = none then
    .ok ⟨num_classes, eos_coef, losses, repeat_label, rRatio⟩
  else
    .error "during init, only one of them shall be set"

/-- `empty_weight` built at `detr.py` lines 244-246: ones over the
`num_classes + 1` classes with the last (no-object) entry replaced by
`eos_coef`. -/
def emptyWeight (cfg : SetCriterionCfg) : List ℚ :=
  List.replicate cfg.num_classes 1 ++ [cfg.eos_coef]

/-- Static configuration of `PostProcess` (`detr.py` lines 450-457), filled
from `args.num_queries`, `args.nms`, `args.nms_thresh`, `args.nms_remove`
(`main.py` lines 36-38, 82). -/
structure PostProcessCfg where
  num_queries : ℕ
  nms : Bool
  nms_thresh : ℚ
  nms_remove : ℚ
deriving DecidableEq

/-- One image's entry of the list returned by `PostProcess.forward`
(`detr.py` line 506): parallel `scores`, `labels`, `boxes` sequences. -/
structure DetResult where
  scores : List ℚ
  labels : List ℕ
  boxes : List BoxXY
deriving DecidableEq

/-- Scan for the running maximum and its (first) index, continuing from
index `i` with current best `best`. -/
def argmaxAux : List ℚ → ℕ → ℚ × ℕ → ℚ × ℕ
  | [], _, best => best
  | x :: xs, i, best => argmaxAux xs (i + 1) (if best.1 < x then (x, i) else best)

/-- `prob[..., :-1].max(-1)` on one slot's probability row (`detr.py` line
474): the best score and the first best class index among all classes except
the trailing no-object column. -/
def scoreLabel (row : List ℚ) : ℚ × ℕ :=
  match row.dropLast with
  | [] => (0, 0)
  | x :: xs => argmaxAux xs 1 (x, 0)

/-- Area of a corner-form box. -/
def box_area (b : BoxXY) : ℚ :=
  (b.x1 - b.x0) * (b.y1 - b.y0)

/-- Modelled from the spec: pairwise `iou` of GeometryOps (the
`torchvision`/`util.box_ops` IoU kernels live outside `src/`): intersection
over union of two corner-form boxes, with the intersection extents clamped
at zero. -/
def box_iou_pair (a b : BoxXY) : ℚ :=
  let inter := max 0 (min a.x1 b.x1 - max a.x0 b.x0) *
    max 0 (min a.y1 b.y1 - max a.y0 b.y0)
  inter / (box_area a + box_area b - inter)

/-- Insert index `i` into a score-descending index list, after every index of
not-smaller score (so equal scores keep their first-come order). -/
def insertDesc (scores : List ℚ) (i : ℕ) : List ℕ → List ℕ
  | [] => [i]
  | j :: rest =>
    if scores.getD j 0 < scores.getD i 0 then i :: j :: rest
    else j :: insertDesc scores i rest

/-- The indices `0, …, n-1` sorted by decreasing score, stably. -/
def sortByScoreDesc (scores : List ℚ) (n : ℕ) : List ℕ :=
  (List.range n).foldl (fun acc i => insertDesc scores i acc) []

/-- Modelled from the spec: `torchvision.ops.batched_nms` (`detr.py` line
483) is an external collaborator; per the spec's PostProcess design it is
class-aware greedy suppression — candidates are visited in decreasing-score
order and a candidate is discarded iff it overlaps an already-kept
same-class candidate with IoU strictly above the threshold; kept indices are
returned in decreasing-score order. -/
def batched_nms (boxes : List BoxXY) (scores : List ℚ) (labels : List ℕ)
    (iou_threshold : ℚ) : List ℕ :=
  (sortByScoreDesc scores boxes.length).foldl
    (fun kept i =>
      if kept.any (fun j =>
          decide (labels.getD j 0 = labels.getD i 0 ∧
            iou_threshold < box_iou_pair (boxes.getD j default) (boxes.getD i default)))
      then kept else kept ++ [i]) []

/-- Rescale a corner-form box from normalized coordinates to absolute pixels
(`detr.py` lines 501-504): the `scale_fct` row is `(img_w, img_h, img_w,
img_h)` for a `(img_h, img_w)` target size. -/
def rescaleBox (img_h img_w : ℚ) (b : BoxXY) : BoxXY :=
  ⟨b.x0 * img_w, b.y0 * img_h, b.x1 * img_w, b.y1 * img_h⟩

/-- The non-kept indices of the suppression step (`detr.py` lines 486-488):
`full_index = ones(num_queries); full_index[keep] = 0; nonzero` — the slot
indices outside `keep`, in ascending order. -/
def nonKeepOf (cfg : PostProcessCfg) (keep : List ℕ) : List ℕ :=
  (List.range cfg.num_queries).filter (fun i => !(keep.contains i))

/-- The in-place decay `score_[non_keep_] *= self.nms_remove` (`detr.py`
line 490): suppressed indices get their score multiplied by the decay
factor, all other entries keep their score. -/
def nmsScores2 (cfg : PostProcessCfg) (scores : List ℚ) (non_keep : List ℕ) :
    List ℚ :=
  (List.range scores.length).map (fun i =>
    if non_keep.contains i then scores.getD i 0 * cfg.nms_remove
    else scores.getD i 0)

/-- The suppression branch of `PostProcess.forward` for one image
(`detr.py` lines 481-499): kept indices first, then the decayed non-kept
ones, truncated at the literal constant `100` (line 493), with labels,
scores and boxes gathered along that index list. -/
def nmsGather (cfg : PostProcessCfg) (scores : List ℚ) (labels : List ℕ)
    (boxes : List BoxXY) : List ℚ × List ℕ × List BoxXY :=
  let keep := batched_nms boxes scores labels cfg.nms_thresh
  let non_keep := nonKeepOf cfg keep
  let scores2 := nmsScores2 cfg scores non_keep
  let keepFull := (keep ++ non_keep).take 100
  (gatherD scores2 keepFull, gatherD labels keepFull, gatherD boxes keepFull)

/-- The body of `PostProcess.forward` (`detr.py` lines 459-508) for one
image.  `prob` is this image's output of `F.softmax(out_logits, -1)` (an
external torch kernel; the model takes the resulting probability rows as
input), `out_bbox` its predicted boxes, `target_size` its `(img_h, img_w)`
row of `target_sizes`. -/
def postprocessImage (cfg : PostProcessCfg) (prob : List (List ℚ))
    (out_bbox : List BoxCS) (target_size : ℚ × ℚ) : DetResult :=
  let scores := prob.map (fun r => (scoreLabel r).1)
  let labels := prob.map (fun r => (scoreLabel r).2)
  let boxes := out_bbox.map box_cxcywh_to_xyxy
  let gathered :=
    if cfg.nms then nmsGather cfg scores labels boxes
    else (scores, labels, boxes)
  ⟨gathered.1, gathered.2.1, gathered.2.2.map (rescaleBox target_size.1 target_size.2)⟩

/-- `PostProcess.forward` over a batch: one `DetResult` per image. -/
def PostProcessForward (cfg : PostProcessCfg) (prob : List (List (List ℚ)))
    (out_bbox : List (List BoxCS)) (target_sizes : List (ℚ × ℚ)) :
    List DetResult :=
  ((prob.zip out_bbox).zip target_sizes).map
    (fun p => postprocessImage cfg p.1.1 p.1.2 p.2)

/-- Per-image matcher output: a `(src_idx, tgt_idx)` pair of index lists per
image, as produced by `self.matcher` (`models/matcher.py` is an external
module to this core). -/
abbrev Indices := List (List ℕ × List ℕ)

/-- Mask logit tensor (opaque payload of the optional `pred_masks` key). -/
abbrev MaskT := List (List (List ℚ))

/-- One decoder layer's prediction dict: `pred_logits` of shape
(batch, slots, classes+1) and `pred_boxes` of shape (batch, slots, 4). -/
structure LayerOutput where
  pred_logits : List (List (List ℚ))
  pred_boxes : List (List BoxCS)
deriving DecidableEq

/-- External numeric kernels consumed by the loss terms but implemented
outside `src/` (`F.cross_entropy`, `util.misc.accuracy`, and the whole mask
branch: `nested_tensor_from_tensor_list`, `interpolate`,
`sigmoid_focal_loss`, `dice_loss`).  They are held opaque, as parameters of
the model. -/
structure ExternalOps where
  crossEntropy : List (List (List ℚ)) → List (List ℕ) → List ℚ → ℚ
  accuracy : List (List ℚ) → List ℕ → ℚ
  maskLoss : Option MaskT → List Target → Indices → ℚ → ℚ × ℚ

/-- Modelled from the spec: `util.box_ops.generalized_box_iou` lives outside
`src/`; per GeometryOps, generalized IoU is IoU minus the normalized area of
the smallest enclosing box outside the union. -/
def generalized_box_iou_pair (a b : BoxXY) : ℚ :=
  let inter := max 0 (min a.x1 b.x1 - max a.x0 b.x0) *
    max 0 (min a.y1 b.y1 - max a.y0 b.y0)
  let uni := box_area a + box_area b - inter
  let cArea := (max a.x1 b.x1 - min a.x0 b.x0) * (max a.y1 b.y1 - min a.y0 b.y0)
  inter / uni - (cArea - uni) / cArea

/-- In-place scatter `row[srcI[k]] = vals[k]` (the per-image effect of
`target_classes[idx] = target_classes_o`, `detr.py` line 263). -/
def scatterRow (row : List ℕ) (srcI : List ℕ) (vals : List ℕ) : List ℕ :=
  (srcI.zip vals).foldl (fun r p => r.set p.1 p.2) row

/-- `target_classes_o` (`detr.py` line 260): matched target labels gathered
per image and concatenated in batch order. -/
def targetClassesO (targets : List Target) (indices : Indices) : List ℕ :=
  ((targets.zip indices).map (fun p => gatherD p.1.labels p.2.2)).flatten

/-- `target_classes` (`detr.py` lines 261-263): per image a row full of the
no-object class `num_classes`, overwritten with the matched target classes at
the matched slot positions. -/
def targetClasses (cfg : SetCriterionCfg) (l : LayerOutput)
    (targets : List Target) (indices : Indices) : List (List ℕ) :=
  (l.pred_logits.zip (targets.zip indices)).map (fun p =>
    scatterRow (List.replicate p.1.length cfg.num_classes) p.2.2.1
      (gatherD p.2.1.labels p.2.2.2))

/-- `src_logits[idx]` (`detr.py` line 270): the matched slots' logit rows,
concatenated in batch order. -/
def srcLogits (l : LayerOutput) (indices : Indices) : List (List ℚ) :=
  ((l.pred_logits.zip indices).map (fun p => gatherD p.1 p.2.1)).flatten

/-- `SetCriterion.loss_labels` (`detr.py` lines 252-271): cross entropy of
the logits against the scattered target classes under `empty_weight`, plus
the `class_error` diagnostic when `log` is set. -/
def loss_labels (ext : ExternalOps) (cfg : SetCriterionCfg) (l : LayerOutput)
    (targets : List Target) (indices : Indices) (log : Bool) :
    List (String × ℚ) :=
  ("loss_ce",
      ext.crossEntropy l.pred_logits (targetClasses cfg l targets indices) (emptyWeight cfg)) ::
    (if log then
      [("class_error",
        100 - ext.accuracy (srcLogits l indices) (targetClassesO targets indices))]
    else [])

/-- First index attaining the row maximum (`argmax(-1)` on one row). -/
def argmaxIdx (row : List ℚ) : ℕ :=
  match row with
  | [] => 0
  | x :: xs => (argmaxAux xs 1 (x, 0)).2

/-- The scalar computed by `SetCriterion.loss_cardinality` (`detr.py` lines
273-285): the L1 mean, over the batch, of |count of slots whose argmax is
not the last (no-object) class − target count|. -/
def cardinalityErrorVal (l : LayerOutput) (targets : List Target) : ℚ :=
  let tgt_lengths := targets.map (fun t => (t.labels.length : ℚ))
  let card_pred := l.pred_logits.map (fun rows =>
    ((rows.filter (fun r => argmaxIdx r + 1 != r.length)).length : ℚ))
  (((card_pred.zip tgt_lengths).map (fun p => |p.1 - p.2|)).sum) /
    (l.pred_logits.length : ℚ)

/-- `SetCriterion.loss_cardinality` (`detr.py` lines 273-285). -/
def loss_cardinality (l : LayerOutput) (targets : List Target) :
    List (String × ℚ) :=
  [("cardinality_error", cardinalityErrorVal l targets)]

/-- `outputs['pred_boxes'][idx]` (`detr.py` line 294): matched predicted
boxes, concatenated in batch order. -/
def matchedSrcBoxes (l : LayerOutput) (indices : Indices) : List BoxCS :=
  ((l.pred_boxes.zip indices).map (fun p => gatherD p.1 p.2.1)).flatten

/-- `target_boxes` (`detr.py` line 295): matched target boxes, concatenated
in batch order. -/
def matchedTgtBoxes (targets : List Target) (indices : Indices) : List BoxCS :=
  ((targets.zip indices).map (fun p => gatherD p.1.boxes p.2.2)).flatten

/-- Elementwise L1 distance between two center-size boxes. -/
def l1Dist (a b : BoxCS) : ℚ :=
  |a.cx - b.cx| + |a.cy - b.cy| + |a.w - b.w| + |a.h - b.h|

/-- The numerator of `loss_bbox` (`detr.py` lines 297-300):
`F.l1_loss(src_boxes, target_boxes, reduction=none).sum()`. -/
def bboxL1Sum (l : LayerOutput) (targets : List Target) (indices : Indices) : ℚ :=
  (((matchedSrcBoxes l indices).zip (matchedTgtBoxes targets indices)).map
    (fun p => l1Dist p.1 p.2)).sum

/-- The numerator of `loss_giou` (`detr.py` lines 302-305): the sum over
matched pairs of `1 - generalized_box_iou` of the corner forms. -/
def giouLossSum (l : LayerOutput) (targets : List Target) (indices : Indices) : ℚ :=
  (((matchedSrcBoxes l indices).zip (matchedTgtBoxes targets indices)).map
    (fun p => 1 - generalized_box_iou_pair (box_cxcywh_to_xyxy p.1)
      (box_cxcywh_to_xyxy p.2))).sum

/-- `SetCriterion.loss_boxes` (`detr.py` lines 287-306): both box terms
divided by the `num_boxes` normalizer. -/
def loss_boxes (l : LayerOutput) (targets : List Target) (indices : Indices)
    (numBoxes : ℚ) : List (String × ℚ) :=
  [("loss_bbox", bboxL1Sum l targets indices / numBoxes),
   ("loss_giou", giouLossSum l targets indices / numBoxes)]

/-- `SetCriterion.loss_masks` (`detr.py` lines 308-335): the gathering,
interpolation, focal and dice computations all run through kernels outside
`src/`, kept opaque as `ext.maskLoss`. -/
def loss_masks (ext : ExternalOps) (masks : Option MaskT)
    (targets : List Target) (indices : Indices) (numBoxes : ℚ) :
    List (String × ℚ) :=
  let p := ext.maskLoss masks targets indices numBoxes
  [("loss_mask", p.1), ("loss_dice", p.2)]

/-- `SetCriterion.get_loss` (`detr.py` lines 349-357): dispatch on the loss
name (the final branch is unreachable for configured names — the source
asserts there).  `masks` carries the optional `pred_masks` entry of the dict
the loss is computed on; `log` is the kwarg forwarded to `loss_labels`. -/
def get_loss (ext : ExternalOps) (cfg : SetCriterionCfg) (loss : String)
    (masks : Option MaskT) (l : LayerOutput) (targets : List Target)
    (indices : Indices) (numBoxes : ℚ) (log : Bool) : List (String × ℚ) :=
  if loss = "labels" then loss_labels ext cfg l targets indices log
  else if loss = "cardinality" then loss_cardinality l targets
  else if loss = "boxes" then loss_boxes l targets indices numBoxes
  else if loss = "masks" then loss_masks ext masks targets indices numBoxes
  else []

/-- The auxiliary-layer loop of `SetCriterion.forward` (`detr.py` lines
432-445): for the `i`-th auxiliary layer the assignment is re-solved on that
layer's own predictions, the `masks` loss is skipped, `loss_labels` is
invoked with `log=False` (the other losses ignore the kwarg), and every
produced key gets the suffix `_i`.  Auxiliary dicts carry no `pred_masks`
key, hence `none`. -/
def auxLoop (ext : ExternalOps) (cfg : SetCriterionCfg)
    (matcher : LayerOutput → List Target → Indices)
    (targetsA : List Target) (numBoxes : ℚ) :
    ℕ → List LayerOutput → List (String × ℚ)
  | _, [] => []
  | i, aux :: rest =>
    ((((cfg.losses.filter (fun s => s != "masks")).map (fun loss =>
        (get_loss ext cfg loss none aux targetsA (matcher aux targetsA) numBoxes false).map
          (fun kv => (kv.1 ++ "_" ++ Nat.repr i, kv.2)))).flatten)) ++
      auxLoop ext cfg matcher targetsA numBoxes (i + 1) rest

/-- The full `outputs` dict handed to `SetCriterion.forward`: last-layer
`pred_logits`/`pred_boxes`, the optional `pred_masks` of the segmentation
head, and the optional `aux_outputs` list. -/
structure Outputs where
  pred_logits : List (List (List ℚ))
  pred_boxes : List (List BoxCS)
  pred_masks : Option MaskT
  aux_outputs : Option (List LayerOutput)

/-- `outputs_without_aux` viewed as one layer (`detr.py` line 414). -/
def Outputs.mainLayer (o : Outputs) : LayerOutput :=
  ⟨o.pred_logits, o.pred_boxes⟩

/-- The result bundle of the pure part of `SetCriterion.forward`, extended
with the internal normalizer and the mutated target structures (the source
mutates `targets` in place; here the mutation is the `targetsA` field). -/
structure CriterionOut where
  losses : List (String × ℚ)
  num_boxes : ℚ
  targetsA : List Target

/-- The computational part of `SetCriterion.forward` (`detr.py` lines
384-447): read `num_queries` off the logits shape, augment the targets,
match the last layer, build the `num_boxes` normalizer (line 420-424: local
sum of label counts, all-reduce sum when distributed — `othersCount` is what
the other processes contribute — divide by the world size, clamp at 1),
compute every configured loss, then the auxiliary loop.  Dict updates are
modelled by list concatenation: the produced key sets are pairwise
disjoint.  `world_size` is `util.misc.get_world_size()`, which is `1`
whenever distributed mode is inactive. -/
def computeLosses (ext : ExternalOps) (cfg : SetCriterionCfg)
    (matcher : LayerOutput → List Target → Indices)
    (outputs : Outputs) (targets : List Target) (training : Bool)
    (randperms : List (List ℕ)) (distributed : Bool) (world_size : ℕ)
    (othersCount : ℚ) : CriterionOut :=
  let num_queries := (outputs.pred_logits.headD []).length
  let targetsA := augmentTargets training cfg.repeat_label cfg.rRatio
    num_queries randperms targets
  let indices := matcher outputs.mainLayer targetsA
  let nbRaw : ℚ := ((targetsA.map (fun t => t.labels.length)).sum : ℕ)
  let nbRed := if distributed then nbRaw + othersCount else nbRaw
  let num_boxes := max (nbRed / (world_size : ℚ)) 1
  let mainLosses := (cfg.losses.map (fun loss =>
    get_loss ext cfg loss outputs.pred_masks outputs.mainLayer targetsA
      indices num_boxes true)).flatten
  let auxLosses := match outputs.aux_outputs with
    | none => []
    | some auxs => auxLoop ext cfg matcher targetsA num_boxes 0 auxs
  ⟨mainLosses ++ auxLosses, num_boxes, targetsA⟩

/-- File contents as parsed-JSON objects: string keys to rendered values. -/
abbrev JsonObjKV := List (String × String)

/-- A flat model of the directory `store_results` writes into: path-indexed
string key/value file contents. -/
structure FS where
  files : List (String × JsonObjKV)
deriving DecidableEq

/-- Read a file (`open(path, 'r')`): `none` when the path does not exist. -/
def fsRead (fs : FS) (p : String) : Option JsonObjKV :=
  (fs.files.find? (fun e => e.1 == p)).map (fun e => e.2)

/-- Write a file (`open(path, 'w')` + `json.dump`), replacing any previous
content at the path. -/
def fsWrite (fs : FS) (p : String) (c : JsonObjKV) : FS :=
  ⟨(p, c) :: fs.files.filter (fun e => e.1 != p)⟩

/-- Dict assignment `obj[k] = v` on a parsed-JSON object. -/
def jsonSet (o : JsonObjKV) (k v : String) : JsonObjKV :=
  (k, v) :: o.filter (fun e => e.1 != k)

/-- `transform_tensors_to_list` + `json.dump` rendering of a label tensor. -/
def renderNatList (l : List ℕ) : String :=
  String.intercalate "," (l.map Nat.repr)

/-- Rendering of a box tensor. -/
def renderBoxList (l : List BoxCS) : String :=
  String.intercalate ";" (l.map (fun b =>
    toString b.cx ++ "," ++ toString b.cy ++ "," ++ toString b.w ++ "," ++ toString b.h))

/-- Rendering of a `(h, w)` size tensor. -/
def renderSize (p : ℕ × ℕ) : String :=
  Nat.repr p.1 ++ "," ++ Nat.repr p.2

/-- The dump path `./pro_data/<store_path>/<split>/outputs/<cnt>.json` of
`SetCriterion.store_results` (`detr.py` line 362). -/
def dumpPath (store_path split : String) (cnt : ℕ) : String :=
  "./pro_data/" ++ store_path ++ "/" ++ split ++ "/outputs/" ++
    Nat.repr cnt ++ ".json"

/-- `SetCriterion.store_results` (`detr.py` lines 359-374): per image, open
the dump file at the current counter for reading (a missing file raises),
install the `gt_labels`, `gt_boxes`, `orig_size`, `size` fields, write the
file back, and advance the counter `self._cnt`. -/
def storeResultsGo (store_path split : String) :
    List Target → FS → ℕ → Except String (FS × ℕ)
  | [], fs, cnt => .ok (fs, cnt)
  | t :: rest, fs, cnt =>
    let path := dumpPath store_path split cnt
    match fsRead fs path with
    | none => .error ("FileNotFoundError: " ++ path)
    | some j =>
      let j1 := jsonSet j "gt_labels" (renderNatList t.labels)
      let j2 := jsonSet j1 "gt_boxes" (renderBoxList t.boxes)
      let j3 := jsonSet j2 "orig_size" (renderSize t.orig_size)
      let j4 := jsonSet j3 "size" (renderSize t.size)
      storeResultsGo store_path split rest (fsWrite fs path j4) (cnt + 1)

/-- What a `SetCriterion.forward` call leaves behind: the loss bundle, the
normalizer, the (in-place mutated) targets, and the filesystem / counter
state after the debug dump. -/
structure ForwardOut where
  losses : List (String × ℚ)
  num_boxes : ℚ
  targetsA : List Target
  fs : FS
  cnt : ℕ

/-- `SetCriterion.forward` (`detr.py` lines 376-447).  Its very first action
(line 383) is the debug dump `self.store_results(targets, store_path=
"DETR_CITY", split="train")` — a filesystem read/write per image — after
which the loss computation is pure.  The filesystem and the `_cnt` counter
are threaded explicitly; `randperms` is the random state consumed by the
augmentation. -/
def SetCriterionForward (ext : ExternalOps) (cfg : SetCriterionCfg)
    (matcher : LayerOutput → List Target → Indices)
    (outputs : Outputs) (targets : List Target) (training : Bool)
    (randperms : List (List ℕ)) (distributed : Bool) (world_size : ℕ)
    (othersCount : ℚ) (fs : FS) (cnt : ℕ) : Except String ForwardOut :=
  match storeResultsGo "DETR_CITY" "train" targets fs cnt with
  | .error e => .error e
  | .ok p =>
    let r := computeLosses ext cfg matcher outputs targets training randperms
      distributed world_size othersCount
    .ok ⟨r.losses, r.num_boxes, r.targetsA, p.1, p.2⟩

theorem tensorRepeat_nil {α : Type} (k : ℕ) : tensorRepeat ([] : List α) k = [] := by
  induction k with
  | zero => rfl
  | succ n ih =>
    have h : tensorRepeat ([] : List α) (n + 1) = [] ++ tensorRepeat ([] : List α) n := by
      simp [tensorRepeat, List.replicate_succ]
    rw [h, List.nil_append, ih]

theorem tensorRepeat_succ {α : Type} (l : List α) (k : ℕ) :
    tensorRepeat l (k + 1) = l ++ tensorRepeat l k := by
  simp [tensorRepeat, List.replicate_succ]

theorem tensorRepeat_length {α : Type} (l : List α) (k : ℕ) :
    (tensorRepeat l k).length = k * l.length := by
  induction k with
  | zero => simp [tensorRepeat]
  | succ n ih =>
    rw [tensorRepeat_succ, List.length_append, ih]
    ring

theorem tensorRepeat_getD {α : Type} [Inhabited α] (l : List α) (k i : ℕ)
    (hi : i < l.length) (hk : 1 ≤ k) :
    (tensorRepeat l k).getD i default = l.getD i default := by
  obtain ⟨m, rfl⟩ : ∃ m, k = m + 1 := ⟨k - 1, by omega⟩
  rw [tensorRepeat_succ, List.getD_append _ _ _ _ hi]

theorem repeatFlagList_eq (n r : ℕ) (hr : 1 ≤ r) :
    repeatFlagList n r = List.replicate n 1 ++ List.replicate (n * r - n) 0 := by
  have h : min n (n * r) = n := min_eq_left (Nat.le_mul_of_pos_right n hr)
  rw [repeatFlagList, h]

theorem repeatFlagList_count (n r : ℕ) (hr : 1 ≤ r) :
    (repeatFlagList n r).count 1 = n := by
  rw [repeatFlagList_eq n r hr, List.count_append]
  simp [List.count_replicate]

theorem repeatFlagList_length (n r : ℕ) (hr : 1 ≤ r) :
    (repeatFlagList n r).length = n * r := by
  have h := Nat.le_mul_of_pos_right n hr
  rw [repeatFlagList_eq n r hr, List.length_append, List.length_replicate,
    List.length_replicate]
  omega

/-- **C8**: constructing `SetCriterion` succeeds exactly when at most one of
the fixed repeat count and the target foreground ratio is set; with both set
it fails immediately, at construction time, with the unrecoverable
`__init__` assertion error. -/
theorem setCriterionInit_mutual_exclusion (num_classes : ℕ) (eos_coef : ℚ)
    (losses : List String) (rl : Option ℕ) (rr : Option ℚ) :
    ((∃ cfg, SetCriterionInit num_classes eos_coef losses rl rr = .ok cfg) ↔
      rl = none ∨ rr = none) ∧
    (SetCriterionInit num_classes eos_coef losses rl rr =
        .error "during init, only one of them shall be set" ↔
      rl ≠ none ∧ rr ≠ none) := by
  unfold SetCriterionInit
  by_cases h : rl = none ∨ rr = none
  · rw [if_pos h]
    constructor
    · exact ⟨fun _ => h, fun _ => ⟨_, rfl⟩⟩
    · constructor
      · intro hc
        exact absurd hc (by simp)
      · intro hc
        exact absurd h (by tauto)
  · rw [if_neg h]
    push_neg at h
    constructor
    · constructor
      · intro hc
        obtain ⟨cfg, hc⟩ := hc
        exact absurd hc (by simp)
      · intro hc
        exact absurd hc (by tauto)
    · exact ⟨fun _ => h, fun _ => rfl⟩

/-- Example target dicts instantiating the theorems on concrete inputs. -/
def targetEx0 : Target := ⟨[], [], [], [], (4, 6), (8, 12), 17, none⟩

def targetEx3 : Target :=
  ⟨[⟨1, 2, 3, 4⟩, ⟨5, 6, 7, 8⟩, ⟨9, 10, 11, 12⟩], [5, 7, 9], [1, 2, 3],
    [0, 0, 0], (4, 6), (8, 12), 17, none⟩

/-- **C7 counterexample**: with a fixed repeat count configured
(`repeat_label = 2`) and an image with zero target instances, the
augmentation step of `SetCriterion.forward` does *not* leave the target
dict unchanged: it installs a new `repeat` key (an empty flag tensor), both
at the per-image level and through the whole training-mode stage. -/
theorem augment_zero_instances_counterexample :
    augmentImage (some 2) none [] targetEx0 ≠ targetEx0 ∧
    (augmentImage (some 2) none [] targetEx0).repeatFlag = some [] ∧
    augmentTargets true (some 2) none 100 [[]] [targetEx0] ≠ [targetEx0] :=
  of_decide_eq_true (by with_unfolding_all rfl)

/-- **C7 (amended)**: for an image with zero target instances the per-field
values are unchanged under every configuration, and under a ratio
configuration the dict is completely untouched; under a fixed repeat count,
however, the augmentation still replaces the per-instance fields with
(equal) empty tensors and installs a length-zero `repeat` key. -/
theorem augment_zero_instances_amended (t : Target) (hb : t.boxes = [])
    (hl : t.labels = []) (ha : t.area = []) (hc : t.iscrowd = [])
    (nf r : ℕ) (randperm : List ℕ) :
    augmentImage none (some nf) randperm t = t ∧
    (augmentImage (some r) none randperm t).boxes = t.boxes ∧
    (augmentImage (some r) none randperm t).labels = t.labels ∧
    (augmentImage (some r) none randperm t).area = t.area ∧
    (augmentImage (some r) none randperm t).iscrowd = t.iscrowd ∧
    (augmentImage (some r) none randperm t).orig_size = t.orig_size ∧
    (augmentImage (some r) none randperm t).size = t.size ∧
    (augmentImage (some r) none randperm t).image_id = t.image_id ∧
    (augmentImage (some r) none randperm t).repeatFlag = some [] := by
  have h0 : t.labels.length = 0 := by rw [hl]; rfl
  refine ⟨?_, ?_, ?_, ?_, ?_, ?_, ?_, ?_, ?_⟩
  · simp [augmentImage, h0]
  all_goals
    simp [augmentImage, h0, hb, hl, ha, hc, tensorRepeat_nil, repeatFlagList]

/-- Witness for the amended C7 theorem at a concrete zero-instance image. -/
theorem augment_zero_instances_witness :
    augmentImage none (some 25) [] targetEx0 = targetEx0 ∧
    (augmentImage (some 2) none [] targetEx0).repeatFlag = some [] := by
  have h := augment_zero_instances_amended targetEx0 rfl rfl rfl rfl 25 2 []
  exact ⟨h.1, h.2.2.2.2.2.2.2.2⟩

/-- **C1**: in training mode with a ratio `q` configured (and no fixed
repeat count), for an image with `0 < n < f` target instances where
`f = ⌊q·Q⌋`, the augmentation stage produces exactly `f` instances: the
original `n` tiled `⌊f/n⌋` times, followed by `f mod n` pairwise-distinct
randomly drawn duplicates, with exactly `n` entries of the `repeat` flag
marked original. -/
theorem ratio_augmentation_structure (Q n f : ℕ) (q : ℚ) (t : Target)
    (randperm : List ℕ) (hf : f = Int.toNat ⌊q * (Q : ℚ)⌋)
    (hn : t.labels.length = n) (hbn : t.boxes.length = n)
    (hp : randperm.Perm (List.range n)) (h0 : 0 < n) (hnf : n < f) :
    augmentTargets true none (some q) Q [randperm] [t] =
      [augmentImage none (some f) randperm t] ∧
    (augmentImage none (some f) randperm t).labels.length = f ∧
    (augmentImage none (some f) randperm t).boxes.length = f ∧
    (augmentImage none (some f) randperm t).labels =
      tensorRepeat t.labels (f / n) ++
        (randperm.take (f % n)).map (fun i => t.labels.getD i 0) ∧
    (randperm.take (f % n)).Nodup ∧
    ((augmentImage none (some f) randperm t).repeatFlag.getD []).count 1 = n := by
  have hlen : randperm.length = n := by
    have := hp.length_eq
    simpa using this
  have hmod : f % n < n := Nat.mod_lt _ h0
  have hdiv : 1 ≤ f / n := (Nat.one_le_div_iff h0).mpr (le_of_lt hnf)
  have hcond : ¬ (t.labels.length = 0 ∨ f ≤ t.labels.length) := by omega
  have hA : augmentImage none (some f) randperm t =
      { t with
        boxes := tensorRepeat t.boxes (f / n) ++
          gatherD (tensorRepeat t.boxes (f / n)) (randperm.take (f % n)),
        labels := tensorRepeat t.labels (f / n) ++
          gatherD (tensorRepeat t.labels (f / n)) (randperm.take (f % n)),
        area := tensorRepeat t.area (f / n) ++
          gatherD (tensorRepeat t.area (f / n)) (randperm.take (f % n)),
        iscrowd := tensorRepeat t.iscrowd (f / n) ++
          gatherD (tensorRepeat t.iscrowd (f / n)) (randperm.take (f % n)),
        repeatFlag := some (repeatFlagList t.labels.length (f / n)) } := by
    rw [augmentImage]
    simp only [hn]
    rw [if_neg (by omega)]
  have htake : (randperm.take (f % n)).length = f % n := by
    rw [List.length_take, hlen]
    omega
  have hmemlt : ∀ i ∈ randperm.take (f % n), i < n := by
    intro i hi
    have h1 : i ∈ randperm := List.mem_of_mem_take hi
    have h2 : i ∈ List.range n := hp.subset h1
    exact List.mem_range.mp h2
  refine ⟨?_, ?_, ?_, ?_, ?_, ?_⟩
  · rw [augmentTargets, if_pos (by simp)]
    subst hf
    rfl
  · rw [hA]
    simp only [List.length_append, tensorRepeat_length, gatherD, List.length_map, htake, hn]
    rw [Nat.mul_comm]
    exact Nat.div_add_mod f n
  · rw [hA]
    simp only [List.length_append, tensorRepeat_length, gatherD, List.length_map, htake, hbn]
    rw [Nat.mul_comm]
    exact Nat.div_add_mod f n
  · rw [hA]
    simp only [gatherD]
    congr 1
    apply List.map_congr_left
    intro i hi
    have : i < t.labels.length := by rw [hn]; exact hmemlt i hi
    exact tensorRepeat_getD t.labels (f / n) i this hdiv
  · exact (List.take_sublist _ _).nodup (hp.symm.nodup (List.nodup_range n))
  · rw [hA]
    simp only [Option.getD_some, hn]
    exact repeatFlagList_count n (f / n) hdiv

/-- Witness for C1 at the spec's concrete instance `q = 1/4`, `Q = 100`,
`n = 3`: `f = 25` instances, `3` of them flagged original. -/
theorem ratio_augmentation_witness :
    ((25 : ℕ) = Int.toNat ⌊(1/4 : ℚ) * ((100 : ℕ) : ℚ)⌋) ∧
    [2, 0, 1].Perm (List.range 3) ∧
    (augmentImage none (some 25) [2, 0, 1] targetEx3).labels.length = 25 ∧
    ((augmentImage none (some 25) [2, 0, 1] targetEx3).repeatFlag.getD []).count 1 = 3 := by
  have h := ratio_augmentation_structure 100 3 25 (1/4) targetEx3 [2, 0, 1]
    (of_decide_eq_true (by with_unfolding_all rfl)) rfl rfl (by decide)
    (by decide) (by decide)
  exact ⟨of_decide_eq_true (by with_unfolding_all rfl), by decide, h.2.1, h.2.2.2.2.2⟩

/-- **C4 counterexample**: at `ρ·Q = 25`, `n = 3` the augmented image has 25
rows but the `repeat` flag tensor has only 24 entries — the flag does *not*
have one entry per post-augmentation row. -/
theorem repeat_flag_counterexample :
    ((augmentImage none (some 25) [2, 0, 1] targetEx3).repeatFlag.getD []).length = 24 ∧
    (augmentImage none (some 25) [2, 0, 1] targetEx3).labels.length = 25 ∧
    ((augmentImage none (some 25) [2, 0, 1] targetEx3).repeatFlag.getD []).length ≠
      (augmentImage none (some 25) [2, 0, 1] targetEx3).labels.length :=
  of_decide_eq_true (by with_unfolding_all rfl)

/-- **C4 (amended)**: the `repeat` flag written by the augmentation is
`replicate n 1 ++ replicate (n·rt − n) 0` where `rt` is the repeat count
(`⌊f/n⌋` in ratio mode): ones exactly on the first `n` entries, length
`n·rt`.  In fixed-repeat-count mode that is one entry per row; in ratio
mode the `f mod n` randomly-appended duplicate rows carry no flag entry. -/
theorem repeat_flag_amended (n rt m : ℕ) (repeat_label num_fore : Option ℕ)
    (t : Target) (randperm : List ℕ) (hn : t.labels.length = n) (h0 : 0 < n)
    (hm : m ≤ randperm.length)
    (hmode : (num_fore = none ∧ repeat_label = some rt ∧ 1 ≤ rt ∧ m = 0) ∨
      (∃ f, num_fore = some f ∧ n < f ∧ rt = f / n ∧ m = f % n)) :
    (augmentImage repeat_label num_fore randperm t).repeatFlag =
      some (List.replicate n 1 ++ List.replicate (n * rt - n) 0) ∧
    ((augmentImage repeat_label num_fore randperm t).repeatFlag.getD []).length = n * rt ∧
    (augmentImage repeat_label num_fore randperm t).labels.length = n * rt + m := by
  rcases hmode with ⟨hnf, hrl, hrt, hm0⟩ | ⟨f, hnf, hnlt, hrt, hmod⟩
  · subst hnf hrl hm0
    refine ⟨?_, ?_, ?_⟩
    · show (augmentImage (some rt) none randperm t).repeatFlag = _
      rw [augmentImage]
      simp only [Option.getD_some, hn]
      rw [repeatFlagList_eq n rt hrt]
    · show ((augmentImage (some rt) none randperm t).repeatFlag.getD []).length = _
      rw [augmentImage]
      simp only [Option.getD_some, hn]
      exact repeatFlagList_length n rt hrt
    · show (augmentImage (some rt) none randperm t).labels.length = _
      rw [augmentImage]
      simp only [Option.getD_some]
      rw [tensorRepeat_length, hn, Nat.mul_comm]
      omega
  · subst hnf hrt hmod
    have hdiv : 1 ≤ f / n := (Nat.one_le_div_iff h0).mpr (le_of_lt hnlt)
    have hA : augmentImage repeat_label (some f) randperm t =
        { t with
          boxes := tensorRepeat t.boxes (f / n) ++
            gatherD (tensorRepeat t.boxes (f / n)) (randperm.take (f % n)),
          labels := tensorRepeat t.labels (f / n) ++
            gatherD (tensorRepeat t.labels (f / n)) (randperm.take (f % n)),
          area := tensorRepeat t.area (f / n) ++
            gatherD (tensorRepeat t.area (f / n)) (randperm.take (f % n)),
          iscrowd := tensorRepeat t.iscrowd (f / n) ++
            gatherD (tensorRepeat t.iscrowd (f / n)) (randperm.take (f % n)),
          repeatFlag := some (repeatFlagList t.labels.length (f / n)) } := by
      rw [augmentImage]
      simp only [hn]
      rw [if_neg (by omega)]
    refine ⟨?_, ?_, ?_⟩
    · rw [hA]
      simp only [hn]
      rw [repeatFlagList_eq n (f / n) hdiv]
    · rw [hA]
      simp only [Option.getD_some, hn]
      exact repeatFlagList_length n (f / n) hdiv
    · rw [hA]
      simp only [List.length_append, tensorRepeat_length, gatherD,
        List.length_map, List.length_take, hn]
      have hmlt : f % n < n := Nat.mod_lt _ h0
      have : min (f % n) randperm.length = f % n := by omega
      rw [this, Nat.mul_comm]

/-- Witness for the amended C4 theorem: fixed repeat count `2` on a
3-instance image gives a flag of length `6 = 3·2` with ones exactly on the
first three entries, matching the row count there. -/
theorem repeat_flag_witness :
    (augmentImage (some 2) none [] targetEx3).repeatFlag =
      some (List.replicate 3 1 ++ List.replicate 3 0) ∧
    (augmentImage (some 2) none [] targetEx3).labels.length = 6 := by
  have h := repeat_flag_amended 3 2 0 (some 2) none targetEx3 [] rfl
    (by decide) (by decide) (Or.inl ⟨rfl, rfl, by decide, rfl⟩)
  refine ⟨by simpa using h.1, by simpa using h.2.2⟩

theorem storeResultsGo_cnt (sp sl : String) (targets : List Target) :
    ∀ (fs : FS) (cnt : ℕ) (q : FS × ℕ),
      storeResultsGo sp sl targets fs cnt = .ok q → q.2 = cnt + targets.length := by
  induction targets with
  | nil =>
    intro fs cnt q h
    simp only [storeResultsGo] at h
    injection h with h
    rw [← h]
    simp
  | cons t rest ih =>
    intro fs cnt q h
    simp only [storeResultsGo] at h
    cases hr : fsRead fs (dumpPath sp sl cnt) with
    | none =>
      rw [hr] at h
      exact absurd h (by simp)
    | some j =>
      rw [hr] at h
      have hq := ih _ _ _ h
      rw [hq, List.length_cons]
      omega

theorem setCriterionForward_ok (ext : ExternalOps) (cfg : SetCriterionCfg)
    (matcher : LayerOutput → List Target → Indices) (outputs : Outputs)
    (targets : List Target) (training : Bool) (randperms : List (List ℕ))
    (distributed : Bool) (world_size : ℕ) (othersCount : ℚ) (fs : FS)
    (cnt : ℕ) (q : FS × ℕ)
    (hstore : storeResultsGo "DETR_CITY" "train" targets fs cnt = .ok q) :
    SetCriterionForward ext cfg matcher outputs targets training randperms
      distributed world_size othersCount fs cnt =
    .ok ⟨(computeLosses ext cfg matcher outputs targets training randperms
          distributed world_size othersCount).losses,
        (computeLosses ext cfg matcher outputs targets training randperms
          distributed world_size othersCount).num_boxes,
        (computeLosses ext cfg matcher outputs targets training randperms
          distributed world_size othersCount).targetsA, q.1, q.2⟩ := by
  rw [SetCriterionForward, hstore]

/-- **C2**: for every `SetCriterion.forward` call, the loss normalizer
equals the local batch total of per-image target-label counts (taken after
any augmentation), plus the other processes' contribution exactly when
distributed mode is active (the all-reduce sum), divided by the world size
and clamped below at `1`. -/
theorem num_boxes_normalizer (ext : ExternalOps) (cfg : SetCriterionCfg)
    (matcher : LayerOutput → List Target → Indices) (outputs : Outputs)
    (targets : List Target) (training : Bool) (randperms : List (List ℕ))
    (distributed : Bool) (world_size : ℕ) (othersCount : ℚ) (fs : FS)
    (cnt : ℕ)
    (hstore : ∃ q, storeResultsGo "DETR_CITY" "train" targets fs cnt = .ok q) :
    ∃ r, SetCriterionForward ext cfg matcher outputs targets training randperms
        distributed world_size othersCount fs cnt = .ok r ∧
      r.num_boxes =
        max (((((augmentTargets training cfg.repeat_label cfg.rRatio
              (outputs.pred_logits.headD []).length randperms targets).map
              (fun t => t.labels.length)).sum : ℚ) +
            (if distributed then othersCount else 0)) / (world_size : ℚ)) 1 ∧
      1 ≤ r.num_boxes := by
  obtain ⟨q, hq⟩ := hstore
  refine ⟨_, setCriterionForward_ok ext cfg matcher outputs targets training
    randperms distributed world_size othersCount fs cnt q hq, ?_, ?_⟩
  · show (computeLosses ext cfg matcher outputs targets training randperms
      distributed world_size othersCount).num_boxes = _
    rw [computeLosses]
    cases distributed <;> simp <;> rfl
  · show (1 : ℚ) ≤ (computeLosses ext cfg matcher outputs targets training
      randperms distributed world_size othersCount).num_boxes
    rw [computeLosses]
    exact le_max_right _ _

/-- Concrete collaborators for the witnesses: trivial external kernels, a
matcher returning no pairs, an empty prediction dict, and images with two
and three targets. -/
def extTriv : ExternalOps := ⟨fun _ _ _ => 0, fun _ _ => 0, fun _ _ _ _ => (0, 0)⟩

def matcherTriv : LayerOutput → List Target → Indices := fun _ _ => []

def cfgPlain : SetCriterionCfg := ⟨3, 1/10, [], none, none⟩

def outputsEmpty : Outputs := ⟨[], [], none, none⟩

def targetEx2 : Target :=
  ⟨[⟨1, 2, 3, 4⟩, ⟨5, 6, 7, 8⟩], [1, 2], [1, 2], [0, 0], (4, 6), (8, 12), 3, none⟩

def targetEx3b : Target :=
  ⟨[⟨1, 2, 3, 4⟩, ⟨5, 6, 7, 8⟩, ⟨9, 10, 11, 12⟩], [1, 2, 3], [1, 2, 3],
    [0, 0, 0], (4, 6), (8, 12), 4, none⟩

def fsTwoFiles : FS :=
  ⟨[(dumpPath "DETR_CITY" "train" 0, []), (dumpPath "DETR_CITY" "train" 1, [])]⟩

/-- Witness for C2: world size `1`, no distribution, a batch with `2` and
`3` targets — the normalizer is `5`. -/
theorem num_boxes_normalizer_witness :
    ∃ r, SetCriterionForward extTriv cfgPlain matcherTriv outputsEmpty
        [targetEx2, targetEx3b] false [] false 1 0 fsTwoFiles 0 = .ok r ∧
      r.num_boxes = 5 := by
  obtain ⟨r, hr, hnb, hge⟩ := num_boxes_normalizer extTriv cfgPlain matcherTriv
    outputsEmpty [targetEx2, targetEx3b] false [] false 1 0 fsTwoFiles 0
    ⟨_, by with_unfolding_all rfl⟩
  refine ⟨r, hr, ?_⟩
  rw [hnb]
  with_unfolding_all rfl

theorem computeLosses_targetsA (ext : ExternalOps) (cfg : SetCriterionCfg)
    (matcher : LayerOutput → List Target → Indices) (outputs : Outputs)
    (targets : List Target) (training : Bool) (randperms : List (List ℕ))
    (distributed : Bool) (world_size : ℕ) (othersCount : ℚ) :
    (computeLosses ext cfg matcher outputs targets training randperms
      distributed world_size othersCount).targetsA =
    augmentTargets training cfg.repeat_label cfg.rRatio
      (outputs.pred_logits.headD []).length randperms targets := rfl

/-- The shape of the `num_boxes` computation at `detr.py` lines 420-424,
applied to a raw local sum `S`. -/
def numBoxesFormula (S : ℚ) (distributed : Bool) (world_size : ℕ)
    (othersCount : ℚ) : ℚ :=
  max ((if distributed then S + othersCount else S) / (world_size : ℚ)) 1

theorem computeLosses_num_boxes (ext : ExternalOps) (cfg : SetCriterionCfg)
    (matcher : LayerOutput → List Target → Indices) (outputs : Outputs)
    (targets : List Target) (training : Bool) (randperms : List (List ℕ))
    (distributed : Bool) (world_size : ℕ) (othersCount : ℚ) :
    (computeLosses ext cfg matcher outputs targets training randperms
      distributed world_size othersCount).num_boxes =
    numBoxesFormula
      (Nat.cast (((augmentTargets training cfg.repeat_label cfg.rRatio
        (outputs.pred_logits.headD []).length randperms targets).map
        (fun t => t.labels.length)).sum))
      distributed world_size othersCount := rfl

theorem computeLosses_losses (ext : ExternalOps) (cfg : SetCriterionCfg)
    (matcher : LayerOutput → List Target → Indices) (outputs : Outputs)
    (targets : List Target) (training : Bool) (randperms : List (List ℕ))
    (distributed : Bool) (world_size : ℕ) (othersCount : ℚ) :
    (computeLosses ext cfg matcher outputs targets training randperms
      distributed world_size othersCount).losses =
    (cfg.losses.map (fun loss =>
      get_loss ext cfg loss outputs.pred_masks outputs.mainLayer
        (computeLosses ext cfg matcher outputs targets training randperms
          distributed world_size othersCount).targetsA
        (matcher outputs.mainLayer
          (computeLosses ext cfg matcher outputs targets training randperms
            distributed world_size othersCount).targetsA)
        (computeLosses ext cfg matcher outputs targets training randperms
          distributed world_size othersCount).num_boxes true)).flatten ++
    (match outputs.aux_outputs with
      | none => []
      | some auxs => auxLoop ext cfg matcher
          (computeLosses ext cfg matcher outputs targets training randperms
            distributed world_size othersCount).targetsA
          (computeLosses ext cfg matcher outputs targets training randperms
            distributed world_size othersCount).num_boxes 0 auxs) := rfl

/-- **C10**: the normalizer is computed from the target label lists after
augmentation has run: every duplicated instance is counted, so the
denominator of the box L1 and GIoU terms equals the post-duplication
instance total (before clamping at 1), not the original ground-truth
count. -/
theorem num_boxes_counts_duplicates (ext : ExternalOps) (cfg : SetCriterionCfg)
    (matcher : LayerOutput → List Target → Indices) (outputs : Outputs)
    (targets : List Target) (randperms : List (List ℕ)) (fs : FS) (cnt : ℕ)
    (TA : List Target) (S S0 : ℕ)
    (hlosses : cfg.losses = ["labels", "boxes", "cardinality"])
    (hstore : ∃ q, storeResultsGo "DETR_CITY" "train" targets fs cnt = .ok q)
    (hTA : TA = augmentTargets true cfg.repeat_label cfg.rRatio
      (outputs.pred_logits.headD []).length randperms targets)
    (hS : S = (TA.map (fun t => t.labels.length)).sum)
    (hS0 : S0 = (targets.map (fun t => t.labels.length)).sum)
    (hS1 : 1 ≤ S) (hlt : S0 < S) :
    ∃ r, SetCriterionForward ext cfg matcher outputs targets true randperms
        false 1 0 fs cnt = .ok r ∧
      r.num_boxes = (S : ℚ) ∧
      r.num_boxes ≠ (S0 : ℚ) ∧
      ("loss_bbox",
        bboxL1Sum outputs.mainLayer TA (matcher outputs.mainLayer TA) / (S : ℚ))
        ∈ r.losses ∧
      ("loss_giou",
        giouLossSum outputs.mainLayer TA (matcher outputs.mainLayer TA) / (S : ℚ))
        ∈ r.losses := by
  obtain ⟨q, hq⟩ := hstore
  have hnb : (computeLosses ext cfg matcher outputs targets true randperms
      false 1 0).num_boxes = (S : ℚ) := by
    rw [computeLosses_num_boxes, numBoxesFormula]
    simp only [Bool.false_eq_true, if_false, ← hTA, ← hS]
    rw [Nat.cast_one, div_one]
    exact max_eq_left ((Nat.one_le_cast).mpr hS1)
  refine ⟨_, setCriterionForward_ok ext cfg matcher outputs targets true
    randperms false 1 0 fs cnt q hq, hnb, ?_, ?_, ?_⟩
  · rw [hnb]
    intro hc
    exact absurd (Nat.cast_inj.mp hc) (by omega)
  · show _ ∈ (computeLosses ext cfg matcher outputs targets true randperms
      false 1 0).losses
    rw [computeLosses_losses, hlosses, computeLosses_targetsA, ← hTA, hnb]
    simp [get_loss, loss_boxes]
  · show _ ∈ (computeLosses ext cfg matcher outputs targets true randperms
      false 1 0).losses
    rw [computeLosses_losses, hlosses, computeLosses_targetsA, ← hTA, hnb]
    simp [get_loss, loss_boxes]

/-- Configuration with an active fixed repeat count and the default loss
list of `build` (`detr.py` line 567). -/
def cfgRepeat2 : SetCriterionCfg :=
  ⟨3, 1/10, ["labels", "boxes", "cardinality"], some 2, none⟩

/-- Witness for C10: one image with 2 targets, repeat count 2 — the
normalizer is the post-duplication total 4, not the original count 2. -/
theorem num_boxes_counts_duplicates_witness :
    ∃ r, SetCriterionForward extTriv cfgRepeat2 matcherTriv outputsEmpty
        [targetEx2] true [[]] false 1 0 fsTwoFiles 0 = .ok r ∧
      r.num_boxes = 4 ∧ r.num_boxes ≠ 2 := by
  obtain ⟨r, hr, hnb, hne, hmem1, hmem2⟩ := num_boxes_counts_duplicates extTriv
    cfgRepeat2 matcherTriv outputsEmpty [targetEx2] [[]] fsTwoFiles 0
    (augmentTargets true cfgRepeat2.repeat_label cfgRepeat2.rRatio
      (outputsEmpty.pred_logits.headD []).length [[]] [targetEx2]) 4 2
    rfl ⟨_, by with_unfolding_all rfl⟩ rfl (by with_unfolding_all rfl)
    (by with_unfolding_all rfl) (by omega) (by omega)
  refine ⟨r, hr, ?_, ?_⟩
  · rw [hnb]
    norm_num
  · rw [hnb]
    norm_num

theorem string_append_data (p x : String) : (p ++ x).data = p.data ++ x.data := rfl

theorem string_ne_of_get (s t : String) (k : ℕ) (h : s.data[k]? ≠ t.data[k]?) :
    s ≠ t := by
  intro he
  rw [he] at h
  exact h rfl

theorem string_append_get (p x : String) (k : ℕ) (hp : k < p.data.length) :
    (p ++ x).data[k]? = p.data[k]? := by
  rw [string_append_data, List.getElem?_append, if_pos hp]

theorem ne_append_right_of_get (s p x : String) (k : ℕ)
    (hp : k < p.data.length) (h : s.data[k]? ≠ p.data[k]?) : s ≠ p ++ x := by
  apply string_ne_of_get _ _ k
  rw [string_append_get p x k hp]
  exact h

theorem append_ne_append_of_get (p q x y : String) (k : ℕ)
    (hp : k < p.data.length) (hq : k < q.data.length)
    (h : p.data[k]? ≠ q.data[k]?) : p ++ x ≠ q ++ y := by
  apply string_ne_of_get _ _ k
  rw [string_append_get p x k hp, string_append_get q y k hq]
  exact h

theorem key_suffix_eq (p q : String) (hpq : p ++ "_" = q) (r : String) :
    p ++ ("_" ++ r) = q ++ r := by
  rw [← String.append_assoc, hpq]

theorem auxLayer_bundle (ext : ExternalOps) (cfg : SetCriterionCfg)
    (matcher : LayerOutput → List Target → Indices) (TA : List Target)
    (nb : ℚ) (i : ℕ) (aux : LayerOutput)
    (hlosses : cfg.losses = ["labels", "boxes", "cardinality", "masks"]) :
    ((cfg.losses.filter (fun s => s != "masks")).map (fun loss =>
      (get_loss ext cfg loss none aux TA (matcher aux TA) nb false).map
        (fun kv => (kv.1 ++ "_" ++ Nat.repr i, kv.2)))).flatten =
    [("loss_ce_" ++ Nat.repr i,
        ext.crossEntropy aux.pred_logits
          (targetClasses cfg aux TA (matcher aux TA)) (emptyWeight cfg)),
     ("loss_bbox_" ++ Nat.repr i, bboxL1Sum aux TA (matcher aux TA) / nb),
     ("loss_giou_" ++ Nat.repr i, giouLossSum aux TA (matcher aux TA) / nb),
     ("cardinality_error_" ++ Nat.repr i, cardinalityErrorVal aux TA)] := by
  rw [hlosses]
  with_unfolding_all rfl

theorem main_bundle (ext : ExternalOps) (cfg : SetCriterionCfg)
    (masks : Option MaskT) (l : LayerOutput) (TA : List Target)
    (idx : Indices) (nb : ℚ)
    (hlosses : cfg.losses = ["labels", "boxes", "cardinality", "masks"]) :
    (cfg.losses.map (fun loss =>
      get_loss ext cfg loss masks l TA idx nb true)).flatten =
    [("loss_ce", ext.crossEntropy l.pred_logits (targetClasses cfg l TA idx)
        (emptyWeight cfg)),
     ("class_error", 100 - ext.accuracy (srcLogits l idx) (targetClassesO TA idx)),
     ("loss_bbox", bboxL1Sum l TA idx / nb),
     ("loss_giou", giouLossSum l TA idx / nb),
     ("cardinality_error", cardinalityErrorVal l TA),
     ("loss_mask", (ext.maskLoss masks TA idx nb).1),
     ("loss_dice", (ext.maskLoss masks TA idx nb).2)] := by
  rw [hlosses]
  with_unfolding_all rfl

theorem auxLoop_cons_eq (ext : ExternalOps) (cfg : SetCriterionCfg)
    (matcher : LayerOutput → List Target → Indices) (TA : List Target)
    (nb : ℚ) (i0 : ℕ) (a : LayerOutput) (rest : List LayerOutput)
    (hlosses : cfg.losses = ["labels", "boxes", "cardinality", "masks"]) :
    auxLoop ext cfg matcher TA nb i0 (a :: rest) =
    [("loss_ce_" ++ Nat.repr i0,
        ext.crossEntropy a.pred_logits
          (targetClasses cfg a TA (matcher a TA)) (emptyWeight cfg)),
     ("loss_bbox_" ++ Nat.repr i0, bboxL1Sum a TA (matcher a TA) / nb),
     ("loss_giou_" ++ Nat.repr i0, giouLossSum a TA (matcher a TA) / nb),
     ("cardinality_error_" ++ Nat.repr i0, cardinalityErrorVal a TA)] ++
    auxLoop ext cfg matcher TA nb (i0 + 1) rest := by
  rw [show auxLoop ext cfg matcher TA nb i0 (a :: rest) =
    (((cfg.losses.filter (fun s => s != "masks")).map (fun loss =>
      (get_loss ext cfg loss none a TA (matcher a TA) nb false).map
        (fun kv => (kv.1 ++ "_" ++ Nat.repr i0, kv.2)))).flatten) ++
    auxLoop ext cfg matcher TA nb (i0 + 1) rest from rfl]
  rw [auxLayer_bundle ext cfg matcher TA nb i0 a hlosses]

theorem auxLoop_mem (ext : ExternalOps) (cfg : SetCriterionCfg)
    (matcher : LayerOutput → List Target → Indices) (TA : List Target)
    (nb : ℚ)
    (hlosses : cfg.losses = ["labels", "boxes", "cardinality", "masks"]) :
    ∀ (auxs : List LayerOutput) (i0 i : ℕ) (aux : LayerOutput),
      auxs[i]? = some aux →
      ("loss_ce_" ++ Nat.repr (i0 + i),
        ext.crossEntropy aux.pred_logits
          (targetClasses cfg aux TA (matcher aux TA)) (emptyWeight cfg)) ∈
        auxLoop ext cfg matcher TA nb i0 auxs ∧
      ("loss_bbox_" ++ Nat.repr (i0 + i),
        bboxL1Sum aux TA (matcher aux TA) / nb) ∈
        auxLoop ext cfg matcher TA nb i0 auxs ∧
      ("loss_giou_" ++ Nat.repr (i0 + i),
        giouLossSum aux TA (matcher aux TA) / nb) ∈
        auxLoop ext cfg matcher TA nb i0 auxs ∧
      ("cardinality_error_" ++ Nat.repr (i0 + i), cardinalityErrorVal aux TA) ∈
        auxLoop ext cfg matcher TA nb i0 auxs := by
  intro auxs
  induction auxs with
  | nil =>
    intro i0 i aux h
    simp at h
  | cons a rest ih =>
    intro i0 i aux h
    rw [auxLoop_cons_eq ext cfg matcher TA nb i0 a rest hlosses]
    cases i with
    | zero =>
      have ha : a = aux := by simpa using h
      subst ha
      refine ⟨List.mem_append_left _ (by simp), List.mem_append_left _ (by simp),
        List.mem_append_left _ (by simp), List.mem_append_left _ (by simp)⟩
    | succ j =>
      have h' : rest[j]? = some aux := by simpa using h
      have hih := ih (i0 + 1) j aux h'
      have harith : i0 + (j + 1) = (i0 + 1) + j := by omega
      rw [harith]
      exact ⟨List.mem_append_right _ hih.1, List.mem_append_right _ hih.2.1,
        List.mem_append_right _ hih.2.2.1, List.mem_append_right _ hih.2.2.2⟩

theorem auxLoop_keys (ext : ExternalOps) (cfg : SetCriterionCfg)
    (matcher : LayerOutput → List Target → Indices) (TA : List Target)
    (nb : ℚ)
    (hlosses : cfg.losses = ["labels", "boxes", "cardinality", "masks"]) :
    ∀ (auxs : List LayerOutput) (i0 : ℕ) (kv : String × ℚ),
      kv ∈ auxLoop ext cfg matcher TA nb i0 auxs →
      ∃ j, kv.1 = "loss_ce_" ++ Nat.repr j ∨ kv.1 = "loss_bbox_" ++ Nat.repr j ∨
        kv.1 = "loss_giou_" ++ Nat.repr j ∨
        kv.1 = "cardinality_error_" ++ Nat.repr j := by
  intro auxs
  induction auxs with
  | nil =>
    intro i0 kv h
    simp [auxLoop] at h
  | cons a rest ih =>
    intro i0 kv h
    rw [auxLoop_cons_eq ext cfg matcher TA nb i0 a rest hlosses] at h
    rcases List.mem_append.mp h with h1 | h2
    · refine ⟨i0, ?_⟩
      simp only [List.mem_cons, List.not_mem_nil, or_false] at h1
      rcases h1 with h1 | h1 | h1 | h1 <;> rw [h1] <;> simp
    · exact ih (i0 + 1) kv h2

/-- **C6**: when auxiliary outputs are present, `SetCriterion.forward`
re-solves the assignment independently per auxiliary layer on that layer's
own predictions against the same (possibly augmented) targets, computes
every configured loss for it except the mask loss, disables the
classification-error diagnostic, and inserts each term under its name
suffixed with the layer index, all sharing one normalizer. -/
theorem aux_layer_losses (ext : ExternalOps) (cfg : SetCriterionCfg)
    (matcher : LayerOutput → List Target → Indices) (outputs : Outputs)
    (targets : List Target) (training : Bool) (randperms : List (List ℕ))
    (distributed : Bool) (world_size : ℕ) (othersCount : ℚ) (fs : FS)
    (cnt : ℕ) (auxs : List LayerOutput) (TA : List Target) (nb : ℚ)
    (hlosses : cfg.losses = ["labels", "boxes", "cardinality", "masks"])
    (haux : outputs.aux_outputs = some auxs)
    (hstore : ∃ q, storeResultsGo "DETR_CITY" "train" targets fs cnt = .ok q)
    (hTA : TA = augmentTargets training cfg.repeat_label cfg.rRatio
      (outputs.pred_logits.headD []).length randperms targets)
    (hnb : nb = numBoxesFormula
      (Nat.cast ((TA.map (fun t => t.labels.length)).sum))
      distributed world_size othersCount) :
    ∃ r, SetCriterionForward ext cfg matcher outputs targets training
        randperms distributed world_size othersCount fs cnt = .ok r ∧
      ∀ i aux, auxs[i]? = some aux →
        ("loss_ce_" ++ Nat.repr i,
          ext.crossEntropy aux.pred_logits
            (targetClasses cfg aux TA (matcher aux TA)) (emptyWeight cfg)) ∈
          r.losses ∧
        ("loss_bbox_" ++ Nat.repr i,
          bboxL1Sum aux TA (matcher aux TA) / nb) ∈ r.losses ∧
        ("loss_giou_" ++ Nat.repr i,
          giouLossSum aux TA (matcher aux TA) / nb) ∈ r.losses ∧
        ("cardinality_error_" ++ Nat.repr i, cardinalityErrorVal aux TA) ∈
          r.losses ∧
        (∀ v, ("loss_mask_" ++ Nat.repr i, v) ∉ r.losses) ∧
        (∀ v, ("loss_dice_" ++ Nat.repr i, v) ∉ r.losses) ∧
        (∀ v, ("class_error_" ++ Nat.repr i, v) ∉ r.losses) := by
  obtain ⟨q, hq⟩ := hstore
  refine ⟨_, setCriterionForward_ok ext cfg matcher outputs targets training
    randperms distributed world_size othersCount fs cnt q hq, ?_⟩
  have hloss : (computeLosses ext cfg matcher outputs targets training
      randperms distributed world_size othersCount).losses =
      [("loss_ce", ext.crossEntropy outputs.mainLayer.pred_logits
          (targetClasses cfg outputs.mainLayer TA
            (matcher outputs.mainLayer TA)) (emptyWeight cfg)),
       ("class_error", 100 - ext.accuracy
          (srcLogits outputs.mainLayer (matcher outputs.mainLayer TA))
          (targetClassesO TA (matcher outputs.mainLayer TA))),
       ("loss_bbox", bboxL1Sum outputs.mainLayer TA
          (matcher outputs.mainLayer TA) / nb),
       ("loss_giou", giouLossSum outputs.mainLayer TA
          (matcher outputs.mainLayer TA) / nb),
       ("cardinality_error", cardinalityErrorVal outputs.mainLayer TA),
       ("loss_mask", (ext.maskLoss outputs.pred_masks TA
          (matcher outputs.mainLayer TA) nb).1),
       ("loss_dice", (ext.maskLoss outputs.pred_masks TA
          (matcher outputs.mainLayer TA) nb).2)] ++
      auxLoop ext cfg matcher TA nb 0 auxs := by
    simp only [computeLosses_losses, haux, computeLosses_targetsA,
      computeLosses_num_boxes, ← hTA, ← hnb]
    rw [main_bundle ext cfg outputs.pred_masks outputs.mainLayer TA
      (matcher outputs.mainLayer TA) nb hlosses]
  intro i aux hi
  have hm := auxLoop_mem ext cfg matcher TA nb hlosses auxs 0 i aux hi
  rw [Nat.zero_add] at hm
  refine ⟨?_, ?_, ?_, ?_, ?_, ?_, ?_⟩
  · show _ ∈ (computeLosses ext cfg matcher outputs targets training
      randperms distributed world_size othersCount).losses
    rw [hloss]
    exact List.mem_append_right _ hm.1
  · show _ ∈ (computeLosses ext cfg matcher outputs targets training
      randperms distributed world_size othersCount).losses
    rw [hloss]
    exact List.mem_append_right _ hm.2.1
  · show _ ∈ (computeLosses ext cfg matcher outputs targets training
      randperms distributed world_size othersCount).losses
    rw [hloss]
    exact List.mem_append_right _ hm.2.2.1
  · show _ ∈ (computeLosses ext cfg matcher outputs targets training
      randperms distributed world_size othersCount).losses
    rw [hloss]
    exact List.mem_append_right _ hm.2.2.2
  · show ∀ v, _ ∉ (computeLosses ext cfg matcher outputs targets training
      randperms distributed world_size othersCount).losses
    intro v hv
    rw [hloss] at hv
    rcases List.mem_append.mp hv with h1 | h2
    · simp only [List.mem_cons, List.not_mem_nil, or_false] at h1
      rcases h1 with h1 | h1 | h1 | h1 | h1 | h1 | h1
      · exact ne_append_right_of_get "loss_ce" "loss_mask_" (Nat.repr i) 5
          (by decide) (by decide) (congrArg Prod.fst h1).symm
      · exact ne_append_right_of_get "class_error" "loss_mask_" (Nat.repr i) 0
          (by decide) (by decide) (congrArg Prod.fst h1).symm
      · exact ne_append_right_of_get "loss_bbox" "loss_mask_" (Nat.repr i) 5
          (by decide) (by decide) (congrArg Prod.fst h1).symm
      · exact ne_append_right_of_get "loss_giou" "loss_mask_" (Nat.repr i) 5
          (by decide) (by decide) (congrArg Prod.fst h1).symm
      · exact ne_append_right_of_get "cardinality_error" "loss_mask_"
          (Nat.repr i) 0 (by decide) (by decide) (congrArg Prod.fst h1).symm
      · exact ne_append_right_of_get "loss_mask" "loss_mask_" (Nat.repr i) 9
          (by decide) (by decide) (congrArg Prod.fst h1).symm
      · exact ne_append_right_of_get "loss_dice" "loss_mask_" (Nat.repr i) 5
          (by decide) (by decide) (congrArg Prod.fst h1).symm
    · obtain ⟨j, hj⟩ := auxLoop_keys ext cfg matcher TA nb hlosses auxs 0 _ h2
      rcases hj with hj | hj | hj | hj
      · exact append_ne_append_of_get "loss_mask_" "loss_ce_" (Nat.repr i)
          (Nat.repr j) 5 (by decide) (by decide) (by decide) hj
      · exact append_ne_append_of_get "loss_mask_" "loss_bbox_" (Nat.repr i)
          (Nat.repr j) 5 (by decide) (by decide) (by decide) hj
      · exact append_ne_append_of_get "loss_mask_" "loss_giou_" (Nat.repr i)
          (Nat.repr j) 5 (by decide) (by decide) (by decide) hj
      · exact append_ne_append_of_get "loss_mask_" "cardinality_error_"
          (Nat.repr i) (Nat.repr j) 0 (by decide) (by decide) (by decide) hj
  · show ∀ v, _ ∉ (computeLosses ext cfg matcher outputs targets training
      randperms distributed world_size othersCount).losses
    intro v hv
    rw [hloss] at hv
    rcases List.mem_append.mp hv with h1 | h2
    · simp only [List.mem_cons, List.not_mem_nil, or_false] at h1
      rcases h1 with h1 | h1 | h1 | h1 | h1 | h1 | h1
      · exact ne_append_right_of_get "loss_ce" "loss_dice_" (Nat.repr i) 5
          (by decide) (by decide) (congrArg Prod.fst h1).symm
      · exact ne_append_right_of_get "class_error" "loss_dice_" (Nat.repr i) 0
          (by decide) (by decide) (congrArg Prod.fst h1).symm
      · exact ne_append_right_of_get "loss_bbox" "loss_dice_" (Nat.repr i) 5
          (by decide) (by decide) (congrArg Prod.fst h1).symm
      · exact ne_append_right_of_get "loss_giou" "loss_dice_" (Nat.repr i) 5
          (by decide) (by decide) (congrArg Prod.fst h1).symm
      · exact ne_append_right_of_get "cardinality_error" "loss_dice_"
          (Nat.repr i) 0 (by decide) (by decide) (congrArg Prod.fst h1).symm
      · exact ne_append_right_of_get "loss_mask" "loss_dice_" (Nat.repr i) 5
          (by decide) (by decide) (congrArg Prod.fst h1).symm
      · exact ne_append_right_of_get "loss_dice" "loss_dice_" (Nat.repr i) 9
          (by decide) (by decide) (congrArg Prod.fst h1).symm
    · obtain ⟨j, hj⟩ := auxLoop_keys ext cfg matcher TA nb hlosses auxs 0 _ h2
      rcases hj with hj | hj | hj | hj
      · exact append_ne_append_of_get "loss_dice_" "loss_ce_" (Nat.repr i)
          (Nat.repr j) 5 (by decide) (by decide) (by decide) hj
      · exact append_ne_append_of_get "loss_dice_" "loss_bbox_" (Nat.repr i)
          (Nat.repr j) 5 (by decide) (by decide) (by decide) hj
      · exact append_ne_append_of_get "loss_dice_" "loss_giou_" (Nat.repr i)
          (Nat.repr j) 5 (by decide) (by decide) (by decide) hj
      · exact append_ne_append_of_get "loss_dice_" "cardinality_error_"
          (Nat.repr i) (Nat.repr j) 0 (by decide) (by decide) (by decide) hj
  · show ∀ v, _ ∉ (computeLosses ext cfg matcher outputs targets training
      randperms distributed world_size othersCount).losses
    intro v hv
    rw [hloss] at hv
    rcases List.mem_append.mp hv with h1 | h2
    · simp only [List.mem_cons, List.not_mem_nil, or_false] at h1
      rcases h1 with h1 | h1 | h1 | h1 | h1 | h1 | h1
      · exact ne_append_right_of_get "loss_ce" "class_error_" (Nat.repr i) 0
          (by decide) (by decide) (congrArg Prod.fst h1).symm
      · exact ne_append_right_of_get "class_error" "class_error_" (Nat.repr i)
          11 (by decide) (by decide) (congrArg Prod.fst h1).symm
      · exact ne_append_right_of_get "loss_bbox" "class_error_" (Nat.repr i) 0
          (by decide) (by decide) (congrArg Prod.fst h1).symm
      · exact ne_append_right_of_get "loss_giou" "class_error_" (Nat.repr i) 0
          (by decide) (by decide) (congrArg Prod.fst h1).symm
      · exact ne_append_right_of_get "cardinality_error" "class_error_"
          (Nat.repr i) 1 (by decide) (by decide) (congrArg Prod.fst h1).symm
      · exact ne_append_right_of_get "loss_mask" "class_error_" (Nat.repr i) 0
          (by decide) (by decide) (congrArg Prod.fst h1).symm
      · exact ne_append_right_of_get "loss_dice" "class_error_" (Nat.repr i) 0
          (by decide) (by decide) (congrArg Prod.fst h1).symm
    · obtain ⟨j, hj⟩ := auxLoop_keys ext cfg matcher TA nb hlosses auxs 0 _ h2
      rcases hj with hj | hj | hj | hj
      · exact append_ne_append_of_get "class_error_" "loss_ce_" (Nat.repr i)
          (Nat.repr j) 0 (by decide) (by decide) (by decide) hj
      · exact append_ne_append_of_get "class_error_" "loss_bbox_" (Nat.repr i)
          (Nat.repr j) 0 (by decide) (by decide) (by decide) hj
      · exact append_ne_append_of_get "class_error_" "loss_giou_" (Nat.repr i)
          (Nat.repr j) 0 (by decide) (by decide) (by decide) hj
      · exact append_ne_append_of_get "class_error_" "cardinality_error_"
          (Nat.repr i) (Nat.repr j) 1 (by decide) (by decide) (by decide) hj

/-- Concrete auxiliary layers and a mask-enabled configuration for the C6
witness. -/
def cfgMasks : SetCriterionCfg :=
  ⟨3, 1/10, ["labels", "boxes", "cardinality", "masks"], none, none⟩

def auxLayerA : LayerOutput := ⟨[], []⟩

def auxLayerB : LayerOutput := ⟨[[[1, 0]]], [[⟨0, 0, 1, 1⟩]]⟩

def outputsAux : Outputs := ⟨[], [], none, some [auxLayerA, auxLayerB]⟩

set_option maxHeartbeats 3200000 in
/-- Witness for C6 at two concrete auxiliary layers: layer 1 contributes a
`loss_bbox_1` entry computed from its own matcher solve, and no
`loss_mask_1` or `class_error_1` entry exists. -/
theorem aux_layer_losses_witness :
    ∃ r, SetCriterionForward extTriv cfgMasks matcherTriv outputsAux
        [targetEx2] false [] false 1 0 fsTwoFiles 0 = .ok r ∧
      ("loss_bbox_" ++ Nat.repr 1,
        bboxL1Sum auxLayerB [targetEx2] (matcherTriv auxLayerB [targetEx2]) /
          numBoxesFormula
            (Nat.cast (([targetEx2].map (fun t => t.labels.length)).sum))
            false 1 0) ∈ r.losses ∧
      (∀ v, ("loss_mask_" ++ Nat.repr 1, v) ∉ r.losses) ∧
      (∀ v, ("class_error_" ++ Nat.repr 1, v) ∉ r.losses) := by
  obtain ⟨r, hr, hall⟩ := aux_layer_losses extTriv cfgMasks matcherTriv
    outputsAux [targetEx2] false [] false 1 0 fsTwoFiles 0
    [auxLayerA, auxLayerB] [targetEx2]
    (numBoxesFormula
      (Nat.cast (([targetEx2].map (fun t => t.labels.length)).sum)) false 1 0)
    rfl rfl ⟨_, rfl⟩ rfl rfl
  have h := hall 1 auxLayerB rfl
  exact ⟨r, hr, h.2.1, h.2.2.2.2.1, h.2.2.2.2.2.2⟩

/-- **C9 counterexample**: `SetCriterion.forward` is not independent of
state outside its arguments: on an empty filesystem the call fails with the
debug-dump read error, and on a filesystem holding the dump file the call
rewrites that file and advances the module counter — observable effects
beyond the documented in-place target mutation. -/
theorem forward_filesystem_counterexample :
    SetCriterionForward extTriv cfgPlain matcherTriv outputsEmpty [targetEx2]
      false [] false 1 0 ⟨[]⟩ 0 =
      .error ("FileNotFoundError: " ++ dumpPath "DETR_CITY" "train" 0) ∧
    (∃ r, SetCriterionForward extTriv cfgPlain matcherTriv outputsEmpty
      [targetEx2] false [] false 1 0 fsTwoFiles 0 = .ok r ∧
      r.fs ≠ fsTwoFiles ∧ r.cnt = 1) := by
  refine ⟨rfl, _, rfl, ?_, rfl⟩
  exact of_decide_eq_true (by with_unfolding_all rfl)

/-- **C9 (amended)**: given identical arguments (outputs, targets, random
draws, counter), the loss bundle, normalizer and mutated targets of
`SetCriterion.forward` do not depend on the dump files' contents whenever
the debug-dump read succeeds, and the counter advances identically; the
call is deterministic given its inputs, filesystem state included. -/
theorem forward_fs_independence (ext : ExternalOps) (cfg : SetCriterionCfg)
    (matcher : LayerOutput → List Target → Indices) (outputs : Outputs)
    (targets : List Target) (training : Bool) (randperms : List (List ℕ))
    (distributed : Bool) (world_size : ℕ) (othersCount : ℚ)
    (fs1 fs2 : FS) (cnt : ℕ) (r1 r2 : ForwardOut)
    (h1 : SetCriterionForward ext cfg matcher outputs targets training
      randperms distributed world_size othersCount fs1 cnt = .ok r1)
    (h2 : SetCriterionForward ext cfg matcher outputs targets training
      randperms distributed world_size othersCount fs2 cnt = .ok r2) :
    r1.losses = r2.losses ∧ r1.num_boxes = r2.num_boxes ∧
    r1.targetsA = r2.targetsA ∧ r1.cnt = r2.cnt := by
  unfold SetCriterionForward at h1 h2
  cases hs1 : storeResultsGo "DETR_CITY" "train" targets fs1 cnt with
  | error e =>
    rw [hs1] at h1
    exact absurd h1 (by simp)
  | ok p1 =>
    rw [hs1] at h1
    cases hs2 : storeResultsGo "DETR_CITY" "train" targets fs2 cnt with
    | error e =>
      rw [hs2] at h2
      exact absurd h2 (by simp)
    | ok p2 =>
      rw [hs2] at h2
      injection h1 with h1
      injection h2 with h2
      subst h1
      subst h2
      have c1 := storeResultsGo_cnt "DETR_CITY" "train" targets fs1 cnt p1 hs1
      have c2 := storeResultsGo_cnt "DETR_CITY" "train" targets fs2 cnt p2 hs2
      exact ⟨rfl, rfl, rfl, by rw [show p1.2 = cnt + targets.length from c1,
        show p2.2 = cnt + targets.length from c2]⟩

/-- Alternative dump-file contents for the C9 witness. -/
def fsAlt : FS :=
  ⟨[(dumpPath "DETR_CITY" "train" 0, [("x", "y")]),
    (dumpPath "DETR_CITY" "train" 1, [])]⟩

/-- Witness for the amended C9 theorem: two runs over filesystems with
different dump-file contents produce the same loss bundle, normalizer and
counter. -/
theorem forward_fs_independence_witness :
    ∃ r1 r2, SetCriterionForward extTriv cfgPlain matcherTriv outputsEmpty
        [targetEx2] false [] false 1 0 fsTwoFiles 0 = .ok r1 ∧
      SetCriterionForward extTriv cfgPlain matcherTriv outputsEmpty
        [targetEx2] false [] false 1 0 fsAlt 0 = .ok r2 ∧
      r1.losses = r2.losses ∧ r1.num_boxes = r2.num_boxes ∧ r1.cnt = r2.cnt := by
  have h := forward_fs_independence extTriv cfgPlain matcherTriv outputsEmpty
    [targetEx2] false [] false 1 0 fsTwoFiles fsAlt 0 _ _ rfl rfl
  exact ⟨_, _, rfl, rfl, h.1, h.2.1, h.2.2.2⟩

/-- PostProcess configuration without suppression, one slot. -/
def ppCfgNoNms : PostProcessCfg := ⟨1, false, 7/10, 1/100⟩

/-- **C5 counterexample**: with suppression disabled, a normalized box whose
four center-size coordinates all lie in `[0,1]` can still rescale outside
the image: `(cx,cy,w,h) = (0,0,1,1)` on a 2×2 target size yields corner
`x0 = −1 < 0`. -/
theorem postprocess_no_nms_counterexample :
    (∀ b ∈ [(⟨0, 0, 1, 1⟩ : BoxCS)],
      0 ≤ b.cx ∧ b.cx ≤ 1 ∧ 0 ≤ b.cy ∧ b.cy ≤ 1 ∧
      0 ≤ b.w ∧ b.w ≤ 1 ∧ 0 ≤ b.h ∧ b.h ≤ 1) ∧
    ((postprocessImage ppCfgNoNms [[1, 0]] [⟨0, 0, 1, 1⟩] (2, 2)).boxes.getD 0
      default).x0 < 0 :=
  of_decide_eq_true (by with_unfolding_all rfl)

theorem scale_bound (a s : ℚ) (h0 : 0 ≤ a) (h1 : a ≤ 1) (hs : 0 ≤ s) :
    0 ≤ a * s ∧ a * s ≤ s :=
  ⟨mul_nonneg h0 hs, by
    calc a * s ≤ 1 * s := mul_le_mul_of_nonneg_right h1 hs
      _ = s := one_mul s⟩

/-- **C5 (amended)**: with suppression disabled, `PostProcess.forward`
returns exactly one detection per slot, and whenever every input box lies
inside the unit square in corner form (nonnegative extents with
`cx ± w/2`, `cy ± h/2` in `[0,1]` — coordinates merely lying in `[0,1]`
does not suffice), every rescaled output box lies within
`[0, img_w] × [0, img_h]`. -/
theorem postprocess_no_nms (cfg : PostProcessCfg) (prob : List (List ℚ))
    (out_bbox : List BoxCS) (img_h img_w : ℚ)
    (hnms : cfg.nms = false) (hlen : out_bbox.length = prob.length)
    (hbox : ∀ b ∈ out_bbox, 0 ≤ b.w ∧ 0 ≤ b.h ∧ 0 ≤ b.cx - b.w / 2 ∧
      b.cx + b.w / 2 ≤ 1 ∧ 0 ≤ b.cy - b.h / 2 ∧ b.cy + b.h / 2 ≤ 1)
    (hh : 0 ≤ img_h) (hw : 0 ≤ img_w) :
    (postprocessImage cfg prob out_bbox (img_h, img_w)).scores.length =
      prob.length ∧
    (postprocessImage cfg prob out_bbox (img_h, img_w)).labels.length =
      prob.length ∧
    (postprocessImage cfg prob out_bbox (img_h, img_w)).boxes.length =
      prob.length ∧
    ∀ b ∈ (postprocessImage cfg prob out_bbox (img_h, img_w)).boxes,
      0 ≤ b.x0 ∧ b.x0 ≤ img_w ∧ 0 ≤ b.y0 ∧ b.y0 ≤ img_h ∧
      0 ≤ b.x1 ∧ b.x1 ≤ img_w ∧ 0 ≤ b.y1 ∧ b.y1 ≤ img_h := by
  have hpp : postprocessImage cfg prob out_bbox (img_h, img_w) =
      ⟨prob.map (fun r => (scoreLabel r).1), prob.map (fun r => (scoreLabel r).2),
       (out_bbox.map box_cxcywh_to_xyxy).map (rescaleBox img_h img_w)⟩ := by
    rw [postprocessImage, hnms]
    rfl
  refine ⟨?_, ?_, ?_, ?_⟩
  · rw [hpp]
    simp
  · rw [hpp]
    simp
  · rw [hpp]
    simp [hlen]
  · intro b hb
    rw [hpp] at hb
    simp only [List.map_map, List.mem_map, Function.comp] at hb
    obtain ⟨c, hc, rfl⟩ := hb
    obtain ⟨hw0, hh0, hx0, hx1, hy0, hy1⟩ := hbox c hc
    have hx0le : c.cx - c.w / 2 ≤ 1 := by linarith
    have hx1ge : 0 ≤ c.cx + c.w / 2 := by linarith
    have hy0le : c.cy - c.h / 2 ≤ 1 := by linarith
    have hy1ge : 0 ≤ c.cy + c.h / 2 := by linarith
    have b0 := scale_bound (c.cx - c.w / 2) img_w hx0 hx0le hw
    have b1 := scale_bound (c.cy - c.h / 2) img_h hy0 hy0le hh
    have b2 := scale_bound (c.cx + c.w / 2) img_w hx1ge hx1 hw
    have b3 := scale_bound (c.cy + c.h / 2) img_h hy1ge hy1 hh
    exact ⟨b0.1, b0.2, b1.1, b1.2, b2.1, b2.2, b3.1, b3.2⟩

/-- Witness for the amended C5 theorem: a centered half-size box on a 2×2
image stays inside the image, with one output per slot. -/
theorem postprocess_no_nms_witness :
    (postprocessImage ppCfgNoNms [[1, 0]] [⟨1/2, 1/2, 1/2, 1/2⟩] (2, 2)).scores.length = 1 ∧
    (∀ b ∈ (postprocessImage ppCfgNoNms [[1, 0]] [⟨1/2, 1/2, 1/2, 1/2⟩] (2, 2)).boxes,
      0 ≤ b.x0 ∧ b.x0 ≤ 2 ∧ 0 ≤ b.y0 ∧ b.y0 ≤ 2 ∧
      0 ≤ b.x1 ∧ b.x1 ≤ 2 ∧ 0 ≤ b.y1 ∧ b.y1 ≤ 2) := by
  have h := postprocess_no_nms ppCfgNoNms [[1, 0]] [⟨1/2, 1/2, 1/2, 1/2⟩] 2 2
    rfl rfl (of_decide_eq_true (by with_unfolding_all rfl)) (by norm_num)
    (by norm_num)
  exact ⟨h.1, h.2.2.2⟩

theorem insertDesc_perm (scores : List ℚ) (i : ℕ) (l : List ℕ) :
    (insertDesc scores i l).Perm (i :: l) := by
  induction l with
  | nil => simp [insertDesc]
  | cons j rest ih =>
    rw [insertDesc]
    by_cases h : scores.getD j 0 < scores.getD i 0
    · rw [if_pos h]
    · rw [if_neg h]
      exact (ih.cons j).trans (List.Perm.swap i j rest)

theorem foldl_insertDesc_perm (scores : List ℚ) :
    ∀ (l acc : List ℕ),
      (l.foldl (fun a i => insertDesc scores i a) acc).Perm (acc ++ l) := by
  intro l
  induction l with
  | nil => intro acc; simp
  | cons i rest ih =>
    intro acc
    rw [List.foldl_cons]
    exact (ih _).trans
      (((insertDesc_perm scores i acc).append_right rest).trans
        List.perm_middle.symm)

theorem sortByScoreDesc_perm (scores : List ℚ) (n : ℕ) :
    (sortByScoreDesc scores n).Perm (List.range n) := by
  simpa [sortByScoreDesc] using foldl_insertDesc_perm scores (List.range n) []

theorem nms_foldl_sublist (f : List ℕ → ℕ → Bool) :
    ∀ (cands acc : List ℕ), ∃ s, s.Sublist cands ∧
      cands.foldl (fun kept i => if f kept i then kept else kept ++ [i]) acc =
        acc ++ s := by
  intro cands
  induction cands with
  | nil => intro acc; exact ⟨[], List.Sublist.refl [], by simp⟩
  | cons c rest ih =>
    intro acc
    rw [List.foldl_cons]
    cases hc : f acc c
    · obtain ⟨s, hs, he⟩ := ih (acc ++ [c])
      refine ⟨c :: s, hs.cons₂ c, ?_⟩
      rw [if_neg (by simp), he]
      simp
    · obtain ⟨s, hs, he⟩ := ih acc
      refine ⟨s, hs.cons c, ?_⟩
      rw [if_pos rfl, he]

/-- The kept-index list produced by the modelled `batched_nms` is a sublist
of the score-sorted candidate order. -/
theorem batched_nms_sublist (boxes : List BoxXY) (scores : List ℚ)
    (labels : List ℕ) (thresh : ℚ) :
    ∃ s, s.Sublist (sortByScoreDesc scores boxes.length) ∧
      batched_nms boxes scores labels thresh = s := by
  obtain ⟨s, hs, he⟩ := nms_foldl_sublist
    (fun kept i => kept.any (fun j =>
      decide (labels.getD j 0 = labels.getD i 0 ∧
        thresh < box_iou_pair (boxes.getD j default) (boxes.getD i default))))
    (sortByScoreDesc scores boxes.length) []
  exact ⟨s, hs, by rw [batched_nms, he]; simp⟩

theorem batched_nms_nodup (boxes : List BoxXY) (scores : List ℚ)
    (labels : List ℕ) (thresh : ℚ) :
    (batched_nms boxes scores labels thresh).Nodup := by
  obtain ⟨s, hs, he⟩ := batched_nms_sublist boxes scores labels thresh
  rw [he]
  exact hs.nodup ((sortByScoreDesc_perm scores boxes.length).symm.nodup
    (List.nodup_range boxes.length))

theorem batched_nms_subset (boxes : List BoxXY) (scores : List ℚ)
    (labels : List ℕ) (thresh : ℚ) :
    ∀ i ∈ batched_nms boxes scores labels thresh, i < boxes.length := by
  obtain ⟨s, hs, he⟩ := batched_nms_sublist boxes scores labels thresh
  intro i hi
  rw [he] at hi
  have h1 : i ∈ sortByScoreDesc scores boxes.length := hs.subset hi
  have h2 : i ∈ List.range boxes.length :=
    (sortByScoreDesc_perm scores boxes.length).subset h1
  exact List.mem_range.mp h2

theorem length_filter_add (l : List ℕ) (p : ℕ → Bool) :
    (l.filter p).length + (l.filter (fun x => !(p x))).length = l.length := by
  induction l with
  | nil => rfl
  | cons a rest ih =>
    cases h : p a <;> simp [List.filter_cons, h] <;> omega

theorem filter_contains_perm (n : ℕ) (keep : List ℕ) (hnd : keep.Nodup)
    (hsub : ∀ i ∈ keep, i < n) :
    ((List.range n).filter (fun i => keep.contains i)).Perm keep := by
  apply (List.perm_ext_iff_of_nodup ((List.nodup_range n).filter _) hnd).mpr
  intro a
  constructor
  · intro ha
    have := (List.mem_filter.mp ha).2
    exact List.elem_iff.mp this
  · intro ha
    exact List.mem_filter.mpr ⟨List.mem_range.mpr (hsub a ha),
      List.elem_iff.mpr ha⟩

/-- The kept and non-kept index lists of the suppression step partition the
`Q` slots. -/
theorem keep_nonkeep_length (n : ℕ) (keep : List ℕ) (hnd : keep.Nodup)
    (hsub : ∀ i ∈ keep, i < n) :
    keep.length +
      ((List.range n).filter (fun i => !(keep.contains i))).length = n := by
  have h1 := length_filter_add (List.range n) (fun i => keep.contains i)
  have h2 := (filter_contains_perm n keep hnd hsub).length_eq
  rw [h2, List.length_range] at h1
  omega

theorem gatherD_index {α : Type} [Inhabited α] (l : List α) (idx : List ℕ)
    (p : ℕ) :
    (gatherD l idx)[p]? = (idx[p]?).map (fun i => l.getD i default) := by
  simp [gatherD]

theorem getD_map_range (f : ℕ → ℚ) (n j : ℕ) (h : j < n) :
    ((List.range n).map f).getD j 0 = f j := by
  have hlen : j < ((List.range n).map f).length := by simpa using h
  rw [List.getD_eq_getElem _ _ hlen]
  simp

theorem keepFull_index_left (keep non : List ℕ) (p : ℕ)
    (h1 : p < keep.length) (h2 : p < 100) :
    ((keep ++ non).take 100)[p]? = some (keep.getD p 0) := by
  rw [List.getElem?_take, if_pos h2, List.getElem?_append, if_pos h1,
    List.getElem?_eq_getElem h1, List.getD_eq_getElem keep 0 h1]

theorem keepFull_index_right (keep non : List ℕ) (p : ℕ)
    (h1 : keep.length ≤ p) (h2 : p < 100)
    (h3 : p - keep.length < non.length) :
    ((keep ++ non).take 100)[p]? = some (non.getD (p - keep.length) 0) := by
  rw [List.getElem?_take, if_pos h2, List.getElem?_append, if_neg (by omega),
    List.getElem?_eq_getElem h3, List.getD_eq_getElem non 0 h3]

theorem nmsScores2_kept (cfg : PostProcessCfg) (scores : List ℚ)
    (keep : List ℕ) (j : ℕ) (hj : j < scores.length)
    (hmem : j ∈ keep) :
    (nmsScores2 cfg scores (nonKeepOf cfg keep)).getD j 0 = scores.getD j 0 := by
  rw [nmsScores2, getD_map_range _ _ _ hj]
  rw [if_neg]
  intro hc
  have h1 := List.mem_filter.mp (List.elem_iff.mp hc)
  have hcj : keep.contains j = true := List.elem_iff.mpr hmem
  have h2 := h1.2
  rw [hcj] at h2
  exact absurd h2 (by simp)

theorem nmsScores2_suppressed (cfg : PostProcessCfg) (scores : List ℚ)
    (keep : List ℕ) (j : ℕ) (hj : j < scores.length)
    (hmem : j ∈ nonKeepOf cfg keep) :
    (nmsScores2 cfg scores (nonKeepOf cfg keep)).getD j 0 =
      scores.getD j 0 * cfg.nms_remove := by
  rw [nmsScores2, getD_map_range _ _ _ hj]
  rw [if_pos (List.elem_iff.mpr hmem)]

theorem nmsGather_structure (cfg : PostProcessCfg) (scores : List ℚ)
    (labels : List ℕ) (boxes : List BoxXY) (keep non_keep : List ℕ)
    (hsl : scores.length = cfg.num_queries)
    (hbl : boxes.length = cfg.num_queries)
    (hkeep : keep = batched_nms boxes scores labels cfg.nms_thresh)
    (hnon : non_keep = nonKeepOf cfg keep) :
    (nmsGather cfg scores labels boxes).1.length = min cfg.num_queries 100 ∧
    (nmsGather cfg scores labels boxes).2.1.length = min cfg.num_queries 100 ∧
    (nmsGather cfg scores labels boxes).2.2.length = min cfg.num_queries 100 ∧
    keep.length + non_keep.length = cfg.num_queries ∧
    (∀ p, p < keep.length → p < 100 →
      (nmsGather cfg scores labels boxes).1[p]? =
        some (scores.getD (keep.getD p 0) 0) ∧
      (nmsGather cfg scores labels boxes).2.1[p]? =
        some (labels.getD (keep.getD p 0) 0)) ∧
    (∀ p, keep.length ≤ p → p < min cfg.num_queries 100 →
      (nmsGather cfg scores labels boxes).1[p]? =
        some (scores.getD (non_keep.getD (p - keep.length) 0) 0 *
          cfg.nms_remove) ∧
      (nmsGather cfg scores labels boxes).2.1[p]? =
        some (labels.getD (non_keep.getD (p - keep.length) 0) 0)) := by
  have hknd : keep.Nodup := by
    rw [hkeep]
    exact batched_nms_nodup boxes scores labels cfg.nms_thresh
  have hsub : ∀ i ∈ keep, i < cfg.num_queries := by
    rw [hkeep]
    intro i hi
    have := batched_nms_subset boxes scores labels cfg.nms_thresh i hi
    omega
  have hsum : keep.length + non_keep.length = cfg.num_queries := by
    rw [hnon, nonKeepOf]
    exact keep_nonkeep_length cfg.num_queries keep hknd hsub
  have hG : nmsGather cfg scores labels boxes =
      (gatherD (nmsScores2 cfg scores non_keep) ((keep ++ non_keep).take 100),
       gatherD labels ((keep ++ non_keep).take 100),
       gatherD boxes ((keep ++ non_keep).take 100)) := by
    rw [hnon, hkeep]
    rfl
  have hlen : ((keep ++ non_keep).take 100).length = min cfg.num_queries 100 := by
    rw [List.length_take, List.length_append]
    omega
  refine ⟨?_, ?_, ?_, hsum, ?_, ?_⟩
  · rw [hG]
    show (gatherD (nmsScores2 cfg scores non_keep)
      ((keep ++ non_keep).take 100)).length = _
    rw [gatherD, List.length_map, hlen]
  · rw [hG]
    show (gatherD labels ((keep ++ non_keep).take 100)).length = _
    rw [gatherD, List.length_map, hlen]
  · rw [hG]
    show (gatherD boxes ((keep ++ non_keep).take 100)).length = _
    rw [gatherD, List.length_map, hlen]
  · intro p h1 h2
    have hj : keep.getD p 0 ∈ keep := by
      rw [List.getD_eq_getElem keep 0 h1]
      exact List.getElem_mem h1
    have hjQ : keep.getD p 0 < scores.length := by
      rw [hsl]
      exact hsub _ hj
    constructor
    · rw [hG]
      show (gatherD (nmsScores2 cfg scores non_keep)
        ((keep ++ non_keep).take 100))[p]? = _
      rw [gatherD_index, keepFull_index_left keep non_keep p h1 h2, hnon,
        Option.map_some']
      rw [show (default : ℚ) = 0 from rfl,
        nmsScores2_kept cfg scores keep _ hjQ hj]
    · rw [hG]
      show (gatherD labels ((keep ++ non_keep).take 100))[p]? = _
      rw [gatherD_index, keepFull_index_left keep non_keep p h1 h2]
      rfl
  · intro p h1 h2
    have h3 : p - keep.length < non_keep.length := by omega
    have h100 : p < 100 := by omega
    have hj : non_keep.getD (p - keep.length) 0 ∈ non_keep := by
      rw [List.getD_eq_getElem non_keep 0 h3]
      exact List.getElem_mem h3
    have hj2 : non_keep.getD (p - keep.length) 0 ∈ nonKeepOf cfg keep := by
      rw [← hnon]
      exact hj
    have hjQ : non_keep.getD (p - keep.length) 0 < scores.length := by
      rw [hsl]
      have hj3 := hj2
      rw [nonKeepOf] at hj3
      have hm := (List.mem_filter.mp hj3).1
      exact List.mem_range.mp hm
    constructor
    · rw [hG]
      show (gatherD (nmsScores2 cfg scores non_keep)
        ((keep ++ non_keep).take 100))[p]? = _
      rw [gatherD_index, keepFull_index_right keep non_keep p h1 h100 h3, hnon,
        Option.map_some']
      rw [hnon] at hjQ hj2
      rw [show (default : ℚ) = 0 from rfl,
        nmsScores2_suppressed cfg scores keep _ hjQ hj2]
    · rw [hG]
      show (gatherD labels ((keep ++ non_keep).take 100))[p]? = _
      rw [gatherD_index, keepFull_index_right keep non_keep p h1 h100 h3]
      rfl

/-- **C3 (amended)**: with suppression enabled, `PostProcess.forward` keeps
suppressed candidates: kept slots come first with their original scores and
labels, every suppressed slot is appended after all kept ones with its
score multiplied by the decay factor, and the kept/suppressed indices
partition the `Q` slots — but the output cardinality is `min Q 100` (the
index list is truncated at the hard-coded constant `100`), not always `Q`. -/
theorem postprocess_nms_structure (cfg : PostProcessCfg)
    (prob : List (List ℚ)) (out_bbox : List BoxCS) (target_size : ℚ × ℚ)
    (scores0 : List ℚ) (labels0 : List ℕ) (keep non_keep : List ℕ)
    (hnms : cfg.nms = true)
    (hQp : prob.length = cfg.num_queries)
    (hQb : out_bbox.length = cfg.num_queries)
    (hs0 : scores0 = prob.map (fun r => (scoreLabel r).1))
    (hl0 : labels0 = prob.map (fun r => (scoreLabel r).2))
    (hkeep : keep = batched_nms (out_bbox.map box_cxcywh_to_xyxy) scores0
      labels0 cfg.nms_thresh)
    (hnon : non_keep = nonKeepOf cfg keep) :
    (postprocessImage cfg prob out_bbox target_size).scores.length =
      min cfg.num_queries 100 ∧
    (postprocessImage cfg prob out_bbox target_size).labels.length =
      min cfg.num_queries 100 ∧
    (postprocessImage cfg prob out_bbox target_size).boxes.length =
      min cfg.num_queries 100 ∧
    keep.length + non_keep.length = cfg.num_queries ∧
    (∀ p, p < keep.length → p < 100 →
      (postprocessImage cfg prob out_bbox target_size).scores[p]? =
        some (scores0.getD (keep.getD p 0) 0) ∧
      (postprocessImage cfg prob out_bbox target_size).labels[p]? =
        some (labels0.getD (keep.getD p 0) 0)) ∧
    (∀ p, keep.length ≤ p → p < min cfg.num_queries 100 →
      (postprocessImage cfg prob out_bbox target_size).scores[p]? =
        some (scores0.getD (non_keep.getD (p - keep.length) 0) 0 *
          cfg.nms_remove) ∧
      (postprocessImage cfg prob out_bbox target_size).labels[p]? =
        some (labels0.getD (non_keep.getD (p - keep.length) 0) 0)) := by
  have hcomp : postprocessImage cfg prob out_bbox target_size =
      ⟨(nmsGather cfg scores0 labels0 (out_bbox.map box_cxcywh_to_xyxy)).1,
       (nmsGather cfg scores0 labels0 (out_bbox.map box_cxcywh_to_xyxy)).2.1,
       (nmsGather cfg scores0 labels0
         (out_bbox.map box_cxcywh_to_xyxy)).2.2.map
         (rescaleBox target_size.1 target_size.2)⟩ := by
    rw [hs0, hl0, postprocessImage, hnms]
    rfl
  have hstruct := nmsGather_structure cfg scores0 labels0
    (out_bbox.map box_cxcywh_to_xyxy) keep non_keep
    (by rw [hs0]; simpa using hQp) (by simpa using hQb) hkeep hnon
  refine ⟨?_, ?_, ?_, hstruct.2.2.2.1, ?_, ?_⟩
  · rw [hcomp]
    exact hstruct.1
  · rw [hcomp]
    exact hstruct.2.1
  · rw [hcomp]
    show ((nmsGather cfg scores0 labels0
      (out_bbox.map box_cxcywh_to_xyxy)).2.2.map
      (rescaleBox target_size.1 target_size.2)).length = _
    rw [List.length_map]
    exact hstruct.2.2.1
  · intro p h1 h2
    rw [hcomp]
    exact (hstruct.2.2.2.2.1 p h1 h2)
  · intro p h1 h2
    rw [hcomp]
    exact (hstruct.2.2.2.2.2 p h1 h2)

/-- A 101-slot suppression configuration and inputs: one high-scoring box
and 100 identical lower-scoring copies of it. -/
def ppCfg101 : PostProcessCfg := ⟨101, true, 7/10, 1/100⟩

def prob101 : List (List ℚ) := [9/10, 1/10] :: List.replicate 100 [8/10, 2/10]

def bbox101 : List BoxCS := List.replicate 101 ⟨1/2, 1/2, 1/2, 1/2⟩

set_option maxRecDepth 1000000 in
/-- **C3 counterexample**: with suppression enabled and `Q = 101` slots the
output cardinality is `100`, not the slot count `Q` — the kept/suppressed
index list is truncated at the hard-coded `100`. -/
theorem postprocess_nms_cardinality_counterexample :
    ppCfg101.nms = true ∧ ppCfg101.num_queries = 101 ∧
    prob101.length = 101 ∧ bbox101.length = 101 ∧
    (postprocessImage ppCfg101 prob101 bbox101 (1, 1)).scores.length = 100 ∧
    (postprocessImage ppCfg101 prob101 bbox101 (1, 1)).scores.length ≠
      ppCfg101.num_queries :=
  of_decide_eq_true (by with_unfolding_all rfl)

/-- Two fully overlapping same-class boxes, scores 0.9 and 0.8, threshold
0.7, decay 0.01. -/
def ppCfgTwo : PostProcessCfg := ⟨2, true, 7/10, 1/100⟩

def probTwo : List (List ℚ) := [[9/10, 1/10], [8/10, 2/10]]

def bboxTwo : List BoxCS := [⟨1/2, 1/2, 1/2, 1/2⟩, ⟨1/2, 1/2, 1/2, 1/2⟩]

/-- Witness for the amended C3 theorem at the spec's concrete instance: the
suppressed second box is retained after the kept one with score
`0.8 · 0.01 = 0.008 = 1/125`, and the cardinality is `min 2 100 = 2`. -/
theorem postprocess_nms_witness :
    (postprocessImage ppCfgTwo probTwo bboxTwo (1, 1)).scores.length =
      min 2 100 ∧
    [0].length + [1].length = ppCfgTwo.num_queries ∧
    (postprocessImage ppCfgTwo probTwo bboxTwo (1, 1)).scores =
      [9/10, 1/125] := by
  have h := postprocess_nms_structure ppCfgTwo probTwo bboxTwo (1, 1)
    (probTwo.map (fun r => (scoreLabel r).1))
    (probTwo.map (fun r => (scoreLabel r).2)) [0] [1] rfl rfl rfl rfl rfl
    (by with_unfolding_all rfl) (by with_unfolding_all rfl)
  exact ⟨h.1, h.2.2.2.1, of_decide_eq_true (by with_unfolding_all rfl)⟩
